import Mathlib

/-!
# CPUTimer (FastGlobalRegistration/src/CPUTimer.cpp)

A shallow embedding of the `CPUTimer` stopwatch class and the properties of its
start/stop state machine, its duration arithmetic, its sorted map of named
measurements and its textual report.

Modelling conventions

* `struct timespec` is a pair of integers.  `tv_sec` and `tv_nsec` are C `long`s of
  64 bits: every arithmetic result of `toc` is reduced to the range
  `-2^63 .. 2^63 - 1` modulo `2^64` (`wrapLong`).
* `getTime` reads the system clock.  The reading is an explicit argument `now`
  of `tic` and `toc`.
* `assert(c)` aborts the process when `c` is false.  A member function that can
  abort returns `Option`: `none` is the failed assertion.
* `float` is IEEE-754 binary32 with round-to-nearest, ties-to-even (`F32`).
* `std::string` is `String`, one `Char` per C++ `char`; `std::map<std::string,
  float>` is the list of its entries in ascending key order.
* `operator<<` for `float` belongs to the C++ standard library; the report takes
  the rendering of numbers as an argument `render`.
-/

/-! ## IEEE-754 binary32 (`float`) -/

/-- A binary32 datum by its three fields: sign bit, biased exponent (0..255) and
23-bit fraction. -/
structure F32 where
  sign : Bool
  expo : Nat
  frac : Nat
  deriving DecidableEq, Repr

namespace F32

/-- Signed zero. -/
def zero (s : Bool) : F32 := ⟨s, 0, 0⟩

/-- Signed infinity. -/
def inf (s : Bool) : F32 := ⟨s, 255, 0⟩

/-- The quiet NaN produced by invalid operations. -/
def nan : F32 := ⟨false, 255, 4194304⟩

def isNaN (x : F32) : Bool := x.expo == 255 && x.frac != 0

def isInf (x : F32) : Bool := x.expo == 255 && x.frac == 0

def isZero (x : F32) : Bool := x.expo == 0 && x.frac == 0

/-- Integer significand of a finite datum (hidden bit included for normal numbers). -/
def sig (x : F32) : Nat := if x.expo = 0 then x.frac else 8388608 + x.frac

/-- Exponent of the unit in the last place: a finite datum is `± sig * 2 ^ exp2`. -/
def exp2 (x : F32) : Int := if x.expo = 0 then -149 else (x.expo : Int) - 150

def signedSig (x : F32) : Int := if x.sign then -(x.sig : Int) else x.sig

/-- Exact value of a finite datum. -/
def toRat (x : F32) : ℚ := (x.signedSig : ℚ) * 2 ^ x.exp2

/-- Numerator of `(n / d) / 2 ^ q` over the denominator `scaledDen d q`. -/
def scaledNum (n : Nat) (q : Int) : Nat := n * 2 ^ (-q).toNat

/-- Denominator of `(n / d) / 2 ^ q` under the numerator `scaledNum n q`. -/
def scaledDen (d : Nat) (q : Int) : Nat := d * 2 ^ q.toNat

/-- Binary exponent of `n / d` clamped to the range of binary32: the largest `e` in
`-125 .. fuel - 126` with `2 ^ e ≤ n / d`, and `-126` when there is none. -/
def expoOf (n d : Nat) : Nat → Int
  | 0 => -126
  | k + 1 =>
    if scaledDen d ((k : Int) - 125) ≤ scaledNum n ((k : Int) - 125) then (k : Int) - 125
    else expoOf n d k

/-- Round the non-negative rational `n / d` (`0 < d`) to the nearest binary32 datum
with sign `s`, ties to even; overflow gives infinity, underflow is gradual. -/
def round (s : Bool) (n d : Nat) : F32 :=
  if n = 0 then zero s else
  let e : Int := expoOf n d 254
  let q : Int := e - 23
  let N := scaledNum n q
  let D := scaledDen d q
  let k := N / D
  let r := N % D
  let k1 := if D < 2 * r ∨ (2 * r = D ∧ k % 2 = 1) then k + 1 else k
  if k1 < 8388608 then ⟨s, 0, k1⟩
  else if k1 = 16777216 then
    (if 127 < e + 1 then inf s else ⟨s, (e + 1 + 127).toNat, 0⟩)
  else if 127 < e then inf s else ⟨s, (e + 127).toNat, k1 - 8388608⟩

/-- Conversion of a C integer to `float`. -/
def ofInt (i : Int) : F32 :=
  if i = 0 then zero false else round (decide (i < 0)) i.natAbs 1

/-- The `float` addition `x + y`. -/
def add (x y : F32) : F32 :=
  if x.isNaN || y.isNaN then nan
  else if x.isInf then (if y.isInf && x.sign != y.sign then nan else x)
  else if y.isInf then y
  else
    let e := min x.exp2 y.exp2
    let s : Int := x.signedSig * 2 ^ (x.exp2 - e).toNat + y.signedSig * 2 ^ (y.exp2 - e).toNat
    if s = 0 then zero (x.sign && y.sign)
    else round (decide (s < 0)) (scaledNum s.natAbs (-e)) (scaledDen 1 (-e))

/-- The `float` division `x / y`. -/
def div (x y : F32) : F32 :=
  let s := x.sign != y.sign
  if x.isNaN || y.isNaN then nan
  else if x.isInf then (if y.isInf then nan else inf s)
  else if y.isInf then zero s
  else if y.isZero then (if x.isZero then nan else inf s)
  else if x.isZero then zero s
  else round s (scaledNum x.sig (y.exp2 - x.exp2)) (scaledDen y.sig (y.exp2 - x.exp2))

/-- Neither an infinity nor a NaN. -/
def isFinite (x : F32) : Bool := decide (x.expo < 255)

/-- The running sum `acc + v₀ + v₁ + ...` of `float` additions is computed without
rounding: every intermediate result is finite and is the exact sum of its operands. -/
def SumExact : F32 → List F32 → Prop
  | _, [] => True
  | acc, v :: vs =>
    (add acc v).isFinite = true ∧ (add acc v).toRat = acc.toRat + v.toRat ∧
      SumExact (add acc v) vs

end F32

/-! ## Data model -/

/-- The C `struct timespec`: whole seconds and nanoseconds. -/
structure Timespec where
  tv_sec : Int
  tv_nsec : Int
  deriving DecidableEq, Repr

/-- The instant a `timespec` denotes, in nanoseconds. -/
def Timespec.toNanos (ts : Timespec) : Int :=
  ts.tv_sec * 1000000000 + ts.tv_nsec

/-- The value a 64-bit two's complement `long` holds for the arithmetic result `x`:
`x` itself when it is in `-2^63 .. 2^63 - 1`, and `x` reduced modulo `2^64` into that
range otherwise. -/
def wrapLong (x : Int) : Int :=
  (x + 9223372036854775808) % 18446744073709551616 - 9223372036854775808

/-- Both fields of a `timespec` are values of a `long`. -/
def Timespec.InRange (ts : Timespec) : Prop :=
  (-9223372036854775808 ≤ ts.tv_sec ∧ ts.tv_sec ≤ 9223372036854775807) ∧
    (-9223372036854775808 ≤ ts.tv_nsec ∧ ts.tv_nsec ≤ 9223372036854775807)

instance (ts : Timespec) : Decidable ts.InRange := by
  unfold Timespec.InRange; infer_instance

/-- A `timespec` as the clock delivers it: nanoseconds within one second. -/
def Timespec.Normalised (ts : Timespec) : Prop :=
  0 ≤ ts.tv_nsec ∧ ts.tv_nsec < 1000000000

instance (ts : Timespec) : Decidable ts.Normalised := by
  unfold Timespec.Normalised; infer_instance

/-- `TimingInfo`, the `std::pair<std::string, float>` of the header. -/
abbrev TimingInfo := String × F32

/-- Lexicographic comparison of two character sequences, character by character on
their codes; a proper initial segment is smaller. -/
def charsLt : List Char → List Char → Bool
  | _, [] => false
  | [], _ :: _ => true
  | a :: as, b :: bs =>
    if a.toNat < b.toNat then true
    else if b.toNat < a.toNat then false
    else charsLt as bs

/-- The `operator<` of `std::string`, which is the key comparison `std::less` of the map. -/
def strLt (a b : String) : Bool := charsLt a.data b.data

/-- The assignment `m[k] = v` on a `std::map<std::string, float>` given by its entries in
ascending key order.  As `std::map` does, it compares keys with `<` only. -/
def mapAssign : List TimingInfo → String → F32 → List TimingInfo
  | [], k, v => [(k, v)]
  | (k1, v1) :: rest, k, v =>
    if strLt k k1 then (k, v) :: (k1, v1) :: rest
    else if strLt k1 k then (k1, v1) :: mapAssign rest k v
    else (k, v) :: rest

/-- The entries of a map are in strictly ascending key order. -/
def Sorted (m : List TimingInfo) : Prop :=
  m.Pairwise (fun a b => strLt a.1 b.1 = true)

/-- The exact sum of the values of a map. -/
def valuesSum (m : List TimingInfo) : ℚ := (m.map (fun e => e.2.toRat)).sum

/-- Lookup in the entry list of a map. -/
def mapFind : List TimingInfo → String → Option F32
  | [], _ => none
  | (k1, v1) :: rest, k => if k1 = k then some v1 else mapFind rest k

/-- The lines of a text: the runs of characters between its newline characters. -/
def splitLines : List Char → List (List Char)
  | [] => [[]]
  | c :: cs =>
    if c = '\n' then [] :: splitLines cs
    else
      match splitLines cs with
      | [] => [[c]]
      | l :: ls => (c :: l) :: ls

/-- The lines of a string. -/
def textLines (s : String) : List String := (splitLines s.data).map String.mk

/-- The data members of class `CPUTimer`. -/
structure CPUTimer where
  startTime : Timespec
  endTime : Timespec
  startWasSet : Bool
  stopWasSet : Bool
  timingsMap : List TimingInfo
  deriving DecidableEq, Repr

namespace CPUTimer

/-- The constructor `CPUTimer::CPUTimer()`.  It initialises the two flags; the two
timestamps are left uninitialised, so their initial contents `st` and `et` are arbitrary. -/
def init (st et : Timespec) : CPUTimer :=
  { startTime := st, endTime := et, startWasSet := false, stopWasSet := true, timingsMap := [] }

/-- `CPUTimer::tic()` with clock reading `now`. -/
def tic (t : CPUTimer) (now : Timespec) : Option CPUTimer :=
  if t.stopWasSet && !t.startWasSet then
    some { t with startTime := now, startWasSet := true, stopWasSet := false }
  else none

/-- The `timespec temp` that `toc()` computes from `startTime` and `endTime`. -/
def elapsed (startTime endTime : Timespec) : Timespec :=
  if wrapLong (endTime.tv_nsec - startTime.tv_nsec) < 0 then
    { tv_sec := wrapLong (wrapLong (endTime.tv_sec - startTime.tv_sec) - 1),
      tv_nsec := wrapLong (wrapLong (1000000000 + endTime.tv_nsec) - startTime.tv_nsec) }
  else
    { tv_sec := wrapLong (endTime.tv_sec - startTime.tv_sec),
      tv_nsec := wrapLong (endTime.tv_nsec - startTime.tv_nsec) }

/-- `CPUTimer::toc()` with clock reading `now`: the returned `timespec` and the state
it leaves. -/
def toc (t : CPUTimer) (now : Timespec) : Option (Timespec × CPUTimer) :=
  if t.startWasSet && !t.stopWasSet then
    some (elapsed t.startTime now,
      { t with endTime := now, stopWasSet := true, startWasSet := false })
  else none

/-- The literal `1e9f`. -/
def lit1e9f : F32 := F32.round false 1000000000 1

/-- The expression `tv_sec + tv_nsec / 1e9f` of `toc(std::string)`: both integers are
converted to `float`, the division and the addition are `float` operations. -/
def toSeconds (d : Timespec) : F32 :=
  F32.add (F32.ofInt d.tv_sec) (F32.div (F32.ofInt d.tv_nsec) lit1e9f)

/-- `CPUTimer::toc(std::string name)` with clock reading `now`. -/
def tocNamed (t : CPUTimer) (now : Timespec) (name : String) : Option CPUTimer :=
  match t.toc now with
  | none => none
  | some (elapsedTimeCPUTimer, t1) =>
    let seconds := toSeconds elapsedTimeCPUTimer
    some { t1 with timingsMap := mapAssign t1.timingsMap name seconds }

/-- `CPUTimer::getMeasurements()`: the loop pushes one pair per map entry. -/
def getMeasurements (t : CPUTimer) : List TimingInfo :=
  t.timingsMap.foldl (fun ti it => ti ++ [(it.1, it.2)]) []

/-- `CPUTimer::totalTiming()`: `float tot = 0` and one `tot += it->second` per entry. -/
def totalTiming (t : CPUTimer) : F32 :=
  t.timingsMap.foldl (fun tot it => F32.add tot it.2) (F32.ofInt 0)

/-- Output of a string under `left << setw(w)`: padded with spaces on the right up to
`w` characters, written in full when it is longer. -/
def setwLeft (w : Nat) (s : String) : String :=
  s ++ String.mk (List.replicate (w - s.length) ' ')

/-- What the loop body of `allTimings()` appends for one map entry. -/
def entryText (render : F32 → String) (it : TimingInfo) : String :=
  setwLeft 20 it.1 ++ ":\t" ++ render it.2 ++ " sec" ++ "\n"

/-- `CPUTimer::allTimings()`; `render` is the stream output of a `float`. -/
def allTimings (render : F32 → String) (t : CPUTimer) : String :=
  let ss := t.timingsMap.foldl (fun ss it => ss ++ entryText render it) ""
  ss ++ "TOT:\t" ++ render t.totalTiming ++ " sec"

/-- The line of the report for one map entry, without the newline that ends it. -/
def labelLine (render : F32 → String) (it : TimingInfo) : String :=
  setwLeft 20 it.1 ++ ":\t" ++ render it.2 ++ " sec"

/-- The final line of the report. -/
def totLine (render : F32 → String) (t : CPUTimer) : String :=
  "TOT:\t" ++ render t.totalTiming ++ " sec"

/-- No addition of `totalTiming()` rounds in this state. -/
def TotalExact (t : CPUTimer) : Prop :=
  F32.SumExact (F32.ofInt 0) (t.timingsMap.map Prod.snd)

/-! ## Call sequences -/

/-- One call of a public member function, with the clock reading it makes. -/
inductive Call where
  | tic (now : Timespec)
  | toc (now : Timespec)
  | tocNamed (now : Timespec) (name : String)
  | getMeasurements
  | allTimings
  | totalTiming
  deriving DecidableEq, Repr

/-- The state a call leaves; `none` when its assertion fails.  The three reporting
functions assign to no data member. -/
def step (t : CPUTimer) : Call → Option CPUTimer
  | .tic now => t.tic now
  | .toc now => (t.toc now).map Prod.snd
  | .tocNamed now name => t.tocNamed now name
  | .getMeasurements => some t
  | .allTimings => some t
  | .totalTiming => some t

/-- A sequence of calls, each of which has to succeed. -/
def run (t : CPUTimer) : List Call → Option CPUTimer
  | [] => some t
  | c :: cs => (step t c).bind (fun t1 => run t1 cs)

/-- The states a stopwatch can be in: those a sequence of successful calls leads to
from a freshly constructed object. -/
def Reachable (t : CPUTimer) : Prop :=
  ∃ st et calls, run (init st et) calls = some t

/-- Whether the last `tic`/`toc` call of a history after `p` is a `tic`: a `tic` has
been made and no `toc` since. -/
def ticPending (p : Bool) (calls : List Call) : Bool :=
  calls.foldl (fun b c =>
    match c with
    | .tic _ => true
    | .toc _ => false
    | .tocNamed _ _ => false
    | _ => b) p

/-- Whether a call is one of the two `toc` overloads. -/
def Call.isToc : Call → Bool
  | .toc _ => true
  | .tocNamed _ _ => true
  | _ => false

/-- The two flags are complementary. -/
def FlagsOk (t : CPUTimer) : Prop := t.stopWasSet = !t.startWasSet

/-- The labels of the measurements map, in map order. -/
def labels (t : CPUTimer) : List String := t.timingsMap.map Prod.fst

/-- The labelled stop in the words of the specification: the computation of `toc()`,
then the duration converted to seconds as a `float`, `seconds + nanoseconds / 1e9`,
stored under `label`. -/
def specTocNamed (t : CPUTimer) (now : Timespec) (label : String) : Option CPUTimer :=
  (t.toc now).map (fun r =>
    { r.2 with
      timingsMap := mapAssign r.2.timingsMap label
        (F32.add (F32.ofInt r.1.tv_sec)
          (F32.div (F32.ofInt r.1.tv_nsec) (F32.ofInt 1000000000))) })

/-- One `tic()`/`toc()` cycle per pair of clock readings: the durations that the
`toc()` calls return, in order, and the state afterwards; `none` when a call fails. -/
def runCycles (t : CPUTimer) : List (Timespec × Timespec) → Option (List Timespec × CPUTimer)
  | [] => some ([], t)
  | (a, b) :: rest =>
    match t.tic a with
    | none => none
    | some t1 =>
      match t1.toc b with
      | none => none
      | some (d, t2) =>
        match runCycles t2 rest with
        | none => none
        | some (ds, t3) => some (d :: ds, t3)

/-- The calls of `runCycles`. -/
def cycleCalls (rs : List (Timespec × Timespec)) : List Call :=
  (rs.map (fun r => [Call.tic r.1, Call.toc r.2])).flatten

end CPUTimer

/-! ## Durations (C1) -/

namespace CPUTimer

theorem wrapLong_of_range (x : Int) (h1 : -9223372036854775808 ≤ x)
    (h2 : x ≤ 9223372036854775807) : wrapLong x = x := by
  unfold wrapLong
  omega

theorem wrapLong_range (x : Int) :
    -9223372036854775808 ≤ wrapLong x ∧ wrapLong x ≤ 9223372036854775807 := by
  unfold wrapLong
  omega

/-- The nanoseconds of `elapsed` never wrap when both readings are normalised. -/
theorem elapsed_nsec (a b : Timespec) (ha : a.Normalised) (hb : b.Normalised) :
    (elapsed a b).tv_nsec =
      if b.tv_nsec - a.tv_nsec < 0 then 1000000000 + b.tv_nsec - a.tv_nsec
      else b.tv_nsec - a.tv_nsec := by
  unfold Timespec.Normalised at ha hb
  have e1 : wrapLong (b.tv_nsec - a.tv_nsec) = b.tv_nsec - a.tv_nsec :=
    wrapLong_of_range _ (by omega) (by omega)
  have e2 : wrapLong (1000000000 + b.tv_nsec) = 1000000000 + b.tv_nsec :=
    wrapLong_of_range _ (by omega) (by omega)
  have e3 : wrapLong (1000000000 + b.tv_nsec - a.tv_nsec) =
      1000000000 + b.tv_nsec - a.tv_nsec :=
    wrapLong_of_range _ (by omega) (by omega)
  unfold elapsed
  rw [e1, e2]
  split
  · exact e3
  · rfl

/-- The seconds of `elapsed` when both readings are normalised: the wrapped difference,
less one, wrapped again, in the borrow case. -/
theorem elapsed_sec (a b : Timespec) (ha : a.Normalised) (hb : b.Normalised) :
    (elapsed a b).tv_sec =
      if b.tv_nsec - a.tv_nsec < 0 then wrapLong (wrapLong (b.tv_sec - a.tv_sec) - 1)
      else wrapLong (b.tv_sec - a.tv_sec) := by
  unfold Timespec.Normalised at ha hb
  have e1 : wrapLong (b.tv_nsec - a.tv_nsec) = b.tv_nsec - a.tv_nsec :=
    wrapLong_of_range _ (by omega) (by omega)
  unfold elapsed
  rw [e1]
  split <;> rfl

/-- The seconds of `elapsed` when, besides, the difference of the second counts and its
negation fit a `long`: no wrap. -/
theorem elapsed_sec_of_fit (a b : Timespec) (ha : a.Normalised) (hb : b.Normalised)
    (hlo : -9223372036854775807 ≤ b.tv_sec - a.tv_sec)
    (hhi : b.tv_sec - a.tv_sec ≤ 9223372036854775807) :
    (elapsed a b).tv_sec =
      if b.tv_nsec - a.tv_nsec < 0 then b.tv_sec - a.tv_sec - 1
      else b.tv_sec - a.tv_sec := by
  rw [elapsed_sec a b ha hb,
    wrapLong_of_range (b.tv_sec - a.tv_sec) (by omega) (by omega),
    wrapLong_of_range (b.tv_sec - a.tv_sec - 1) (by omega) (by omega)]

theorem elapsed_toNanos (a b : Timespec) (ha : a.Normalised) (hb : b.Normalised)
    (hlo : -9223372036854775807 ≤ b.tv_sec - a.tv_sec)
    (hhi : b.tv_sec - a.tv_sec ≤ 9223372036854775807) :
    (elapsed a b).toNanos = b.toNanos - a.toNanos := by
  unfold Timespec.toNanos
  rw [elapsed_sec_of_fit a b ha hb hlo hhi, elapsed_nsec a b ha hb]
  split <;> ring

theorem elapsed_nsec_range (a b : Timespec) (ha : a.Normalised) (hb : b.Normalised) :
    0 ≤ (elapsed a b).tv_nsec ∧ (elapsed a b).tv_nsec < 1000000000 := by
  rw [elapsed_nsec a b ha hb]
  unfold Timespec.Normalised at ha hb
  split <;> omega

theorem elapsed_sec_nonneg (a b : Timespec) (ha : a.Normalised) (hb : b.Normalised)
    (hle : a.tv_sec < b.tv_sec ∨ (a.tv_sec = b.tv_sec ∧ a.tv_nsec ≤ b.tv_nsec))
    (hhi : b.tv_sec - a.tv_sec ≤ 9223372036854775807) :
    0 ≤ (elapsed a b).tv_sec := by
  rw [elapsed_sec_of_fit a b ha hb (by omega) hhi]
  split <;> omega

theorem elapsed_self (a : Timespec) : elapsed a a = ⟨0, 0⟩ := by
  have z : wrapLong 0 = 0 := by decide
  simp [elapsed, z]

theorem toc_of_tic (t t1 : CPUTimer) (start stop : Timespec) (h : t.tic start = some t1) :
    t1.toc stop = some (elapsed start stop,
      { t1 with endTime := stop, stopWasSet := true, startWasSet := false }) := by
  unfold tic at h
  split at h
  · cases h
    simp [toc]
  · cases h

/-- C1 fails as stated.  With `start = (LONG_MIN, 0)` and `stop = (1, 0)`, both with
nanoseconds in `[0, 10^9)` and `stop` after `start`, the subtraction of the second
counts leaves the range of `long`: `toc()` returns `(-9223372036854775807, 0)`, a
negative duration that is not the elapsed interval. -/
theorem toc_duration_overflow_counterexample :
    Timespec.InRange ⟨-9223372036854775808, 0⟩ ∧ Timespec.InRange ⟨1, 0⟩ ∧
    Timespec.Normalised ⟨-9223372036854775808, 0⟩ ∧ Timespec.Normalised ⟨1, 0⟩ ∧
    (-9223372036854775808 : Int) < 1 ∧
    (init ⟨0, 0⟩ ⟨0, 0⟩).tic ⟨-9223372036854775808, 0⟩ =
      some ⟨⟨-9223372036854775808, 0⟩, ⟨0, 0⟩, true, false, []⟩ ∧
    toc ⟨⟨-9223372036854775808, 0⟩, ⟨0, 0⟩, true, false, []⟩ ⟨1, 0⟩ =
      some (⟨-9223372036854775807, 0⟩,
        ⟨⟨-9223372036854775808, 0⟩, ⟨1, 0⟩, false, true, []⟩) ∧
    ¬ (0 ≤ (-9223372036854775807 : Int)) ∧
    (-9223372036854775807 : Int) * 1000000000 + 0 ≠
      (1 * 1000000000 + 0) - (-9223372036854775808 * 1000000000 + 0) := by
  refine ⟨by decide, by decide, by decide, by decide, by decide, by decide, by decide,
    by decide, by decide⟩

/-- C1, amended: a `tic()` that reads `start` followed by a `toc()` that reads `stop`,
both with nanoseconds in `[0, 10^9)`, `stop` at or after `start`, and the difference of
the second counts at most `LONG_MAX = 2^63 - 1`, returns a duration with non-negative
seconds, nanoseconds in `[0, 10^9)`, that is exactly the elapsed interval (also when
`stop.tv_nsec < start.tv_nsec`); equal readings give `(0, 0)`. -/
theorem toc_duration_exact (t t1 : CPUTimer) (start stop : Timespec)
    (hstart : start.Normalised) (hstop : stop.Normalised)
    (hle : start.tv_sec < stop.tv_sec ∨
      (start.tv_sec = stop.tv_sec ∧ start.tv_nsec ≤ stop.tv_nsec))
    (hfit : stop.tv_sec - start.tv_sec ≤ 9223372036854775807)
    (htic : t.tic start = some t1) :
    ∃ d t2, t1.toc stop = some (d, t2) ∧
      0 ≤ d.tv_sec ∧ 0 ≤ d.tv_nsec ∧ d.tv_nsec < 1000000000 ∧
      d.tv_sec * 1000000000 + d.tv_nsec =
        (stop.tv_sec * 1000000000 + stop.tv_nsec) -
          (start.tv_sec * 1000000000 + start.tv_nsec) ∧
      (stop = start → d = ⟨0, 0⟩) := by
  refine ⟨elapsed start stop, _, toc_of_tic t t1 start stop htic, ?_, ?_, ?_, ?_, ?_⟩
  · exact elapsed_sec_nonneg start stop hstart hstop hle hfit
  · exact (elapsed_nsec_range start stop hstart hstop).1
  · exact (elapsed_nsec_range start stop hstart hstop).2
  · exact elapsed_toNanos start stop hstart hstop (by omega) hfit
  · intro h
    rw [h]
    exact elapsed_self start

/-- The borrow case of C1 at `start = (10, 900000000)`, `stop = (11, 100000000)` on a
fresh stopwatch: the duration is `(0, 200000000)`. -/
theorem toc_duration_exact_witness :
    (init ⟨0, 0⟩ ⟨0, 0⟩).tic ⟨10, 900000000⟩ =
        some ⟨⟨10, 900000000⟩, ⟨0, 0⟩, true, false, []⟩ ∧
      ∃ d t2, toc ⟨⟨10, 900000000⟩, ⟨0, 0⟩, true, false, []⟩ ⟨11, 100000000⟩ = some (d, t2) ∧
        d = ⟨0, 200000000⟩ ∧
        d.tv_sec * 1000000000 + d.tv_nsec =
          ((11 : Int) * 1000000000 + 100000000) - (10 * 1000000000 + 900000000) := by
  refine ⟨by decide, ?_⟩
  obtain ⟨d, t2, h, -, -, -, hd, -⟩ :=
    toc_duration_exact (init ⟨0, 0⟩ ⟨0, 0⟩) ⟨⟨10, 900000000⟩, ⟨0, 0⟩, true, false, []⟩
      ⟨10, 900000000⟩ ⟨11, 100000000⟩ (by decide) (by decide) (by decide) (by decide)
      (by decide)
  refine ⟨d, t2, h, ?_, hd⟩
  have h2 : toc ⟨⟨10, 900000000⟩, ⟨0, 0⟩, true, false, []⟩ ⟨11, 100000000⟩ =
      some (⟨0, 200000000⟩, ⟨⟨10, 900000000⟩, ⟨11, 100000000⟩, false, true, []⟩) := by
    decide
  rw [h2] at h
  cases h
  rfl

/-! ## The start/stop state machine (C2, C3, C4) -/

theorem flagsOk_init (st et : Timespec) : FlagsOk (init st et) := rfl

theorem tic_eq_some (t t1 : CPUTimer) (now : Timespec) (h : t.tic now = some t1) :
    t.stopWasSet = true ∧ t.startWasSet = false ∧
      t1 = { t with startTime := now, startWasSet := true, stopWasSet := false } := by
  unfold tic at h
  split at h
  · rename_i hc
    simp only [Bool.and_eq_true, Bool.not_eq_true'] at hc
    cases h
    exact ⟨hc.1, hc.2, rfl⟩
  · cases h

theorem toc_eq_some (t t1 : CPUTimer) (now d : Timespec) (h : t.toc now = some (d, t1)) :
    t.startWasSet = true ∧ t.stopWasSet = false ∧ d = elapsed t.startTime now ∧
      t1 = { t with endTime := now, stopWasSet := true, startWasSet := false } := by
  unfold toc at h
  split at h
  · rename_i hc
    simp only [Bool.and_eq_true, Bool.not_eq_true'] at hc
    cases h
    exact ⟨hc.1, hc.2, rfl, rfl⟩
  · cases h

theorem tocNamed_eq_some (t t2 : CPUTimer) (now : Timespec) (name : String)
    (h : t.tocNamed now name = some t2) :
    ∃ d t1, t.toc now = some (d, t1) ∧
      t2 = { t1 with timingsMap := mapAssign t1.timingsMap name (toSeconds d) } := by
  unfold tocNamed at h
  split at h
  · cases h
  · rename_i d t1 heq
    cases h
    exact ⟨d, t1, heq, rfl⟩

theorem tocNamed_eq_none (t : CPUTimer) (now : Timespec) (name : String) :
    t.tocNamed now name = none ↔ t.toc now = none := by
  unfold tocNamed
  split
  · rename_i heq
    simp [heq]
  · rename_i heq
    simp [heq]

theorem tic_eq_none (t : CPUTimer) (now : Timespec) (h : FlagsOk t) :
    t.tic now = none ↔ t.startWasSet = true := by
  unfold FlagsOk at h
  unfold tic
  rw [h]
  cases t.startWasSet <;> simp

theorem toc_eq_none (t : CPUTimer) (now : Timespec) (h : FlagsOk t) :
    t.toc now = none ↔ t.startWasSet = false := by
  unfold FlagsOk at h
  unfold toc
  rw [h]
  cases t.startWasSet <;> simp

/-- One successful call keeps the flags complementary and sets `startWasSet` as the
history says. -/
theorem step_flags (t t1 : CPUTimer) (c : Call) (h : step t c = some t1) (hf : FlagsOk t) :
    FlagsOk t1 ∧ t1.startWasSet = ticPending t.startWasSet [c] := by
  cases c with
  | tic now =>
    obtain ⟨-, -, rfl⟩ := tic_eq_some t t1 now h
    exact ⟨rfl, rfl⟩
  | toc now =>
    simp only [step, Option.map_eq_some', Prod.exists, exists_eq_right] at h
    obtain ⟨d, hd⟩ := h
    obtain ⟨-, -, -, rfl⟩ := toc_eq_some t t1 now d hd
    exact ⟨rfl, rfl⟩
  | tocNamed now name =>
    obtain ⟨d, t0, hd, rfl⟩ := tocNamed_eq_some t t1 now name h
    obtain ⟨-, -, -, rfl⟩ := toc_eq_some t t0 now d hd
    exact ⟨rfl, rfl⟩
  | getMeasurements => cases h; exact ⟨hf, rfl⟩
  | allTimings => cases h; exact ⟨hf, rfl⟩
  | totalTiming => cases h; exact ⟨hf, rfl⟩

theorem run_flags (calls : List Call) (t t1 : CPUTimer) (h : run t calls = some t1)
    (hf : FlagsOk t) : FlagsOk t1 ∧ t1.startWasSet = ticPending t.startWasSet calls := by
  induction calls generalizing t with
  | nil =>
    cases h
    exact ⟨hf, rfl⟩
  | cons c cs ih =>
    simp only [run, Option.bind_eq_some] at h
    obtain ⟨t0, h0, h1⟩ := h
    obtain ⟨hf0, hs0⟩ := step_flags t t0 c h0 hf
    obtain ⟨hf1, hs1⟩ := ih t0 h1 hf0
    refine ⟨hf1, ?_⟩
    rw [hs1, hs0]
    rfl

theorem flagsOk_of_run (st et : Timespec) (calls : List Call) (t : CPUTimer)
    (h : run (init st et) calls = some t) : FlagsOk t :=
  (run_flags calls (init st et) t h (flagsOk_init st et)).1

/-- A history without `toc` that starts running stays running. -/
theorem ticPending_true_of_no_toc (cs : List Call) (hcs : ∀ c ∈ cs, c.isToc = false) :
    ticPending true cs = true := by
  induction cs with
  | nil => rfl
  | cons c cs ih =>
    have hc := hcs c (List.mem_cons_self c cs)
    have ih1 := ih (fun c1 h1 => hcs c1 (List.mem_cons_of_mem c h1))
    cases c <;> simp_all [ticPending, Call.isToc]

/-- C2: in every state reachable from a fresh stopwatch, `tic()` fails its assertion
exactly when the stopwatch is running (`startWasSet`), and succeeds exactly when it is
idle (`stopWasSet`); after a successful `tic()`, any further successful calls that
include no `toc` leave a state in which `tic()` fails. -/
theorem tic_fails_iff_running (st et : Timespec) (calls : List Call) (t : CPUTimer)
    (hrun : run (init st et) calls = some t) (now : Timespec) :
    (t.tic now = none ↔ t.startWasSet = true) ∧
    ((t.tic now).isSome = true ↔ t.stopWasSet = true) ∧
    (∀ t1 cs t2 now2, t.tic now = some t1 → (∀ c ∈ cs, c.isToc = false) →
      run t1 cs = some t2 → t2.tic now2 = none) := by
  have hf := flagsOk_of_run st et calls t hrun
  refine ⟨tic_eq_none t now hf, ?_, ?_⟩
  · have h1 := tic_eq_none t now hf
    unfold FlagsOk at hf
    rw [hf]
    cases hs : t.startWasSet
    · cases ht : t.tic now
      · rw [h1, hs] at ht
        cases ht
      · simp
    · rw [h1.2 hs]
      simp
  · intro t1 cs t2 now2 htic hcs hrun2
    obtain ⟨-, -, rfl⟩ := tic_eq_some t t1 now htic
    obtain ⟨hf2, hs2⟩ := run_flags cs _ t2 hrun2 rfl
    rw [tic_eq_none t2 now2 hf2, hs2]
    exact ticPending_true_of_no_toc cs hcs

/-- C2 on a fresh stopwatch: the first `tic()` succeeds, and after `getMeasurements()`
the second `tic()` fails. -/
theorem tic_fails_iff_running_witness :
    run (init ⟨0, 0⟩ ⟨0, 0⟩) [] = some (init ⟨0, 0⟩ ⟨0, 0⟩) ∧
    ((init ⟨0, 0⟩ ⟨0, 0⟩).tic ⟨5, 0⟩).isSome = true ∧
    (⟨⟨5, 0⟩, ⟨0, 0⟩, true, false, []⟩ : CPUTimer).tic ⟨6, 0⟩ = none := by
  have h := tic_fails_iff_running ⟨0, 0⟩ ⟨0, 0⟩ [] (init ⟨0, 0⟩ ⟨0, 0⟩) rfl ⟨5, 0⟩
  refine ⟨rfl, h.2.1.2 rfl, ?_⟩
  exact h.2.2 ⟨⟨5, 0⟩, ⟨0, 0⟩, true, false, []⟩ [Call.getMeasurements]
    ⟨⟨5, 0⟩, ⟨0, 0⟩, true, false, []⟩ ⟨6, 0⟩ (by decide) (by decide) (by decide)

/-- C3: in every state reachable from a fresh stopwatch by the successful calls `calls`,
`toc()` and `toc(name)` fail their assertion exactly when the stopwatch is not running,
which is exactly when no `tic()` has succeeded since construction or since the last
successful `toc`; `toc` fails on a fresh stopwatch, and both fail right after a
successful `toc`. -/
theorem toc_fails_iff_not_running (st et : Timespec) (calls : List Call) (t : CPUTimer)
    (hrun : run (init st et) calls = some t) (now : Timespec) (name : String) :
    (t.toc now = none ↔ t.startWasSet = false) ∧
    (t.tocNamed now name = none ↔ t.startWasSet = false) ∧
    (t.toc now = none ↔ ticPending false calls = false) ∧
    (t.tocNamed now name = none ↔ ticPending false calls = false) ∧
    (init st et).toc now = none ∧ (init st et).tocNamed now name = none ∧
    (∀ d t1 now2, t.toc now = some (d, t1) →
      t1.toc now2 = none ∧ t1.tocNamed now2 name = none) ∧
    (∀ t1 now2, t.tocNamed now name = some t1 →
      t1.toc now2 = none ∧ t1.tocNamed now2 name = none) := by
  obtain ⟨hf, hs⟩ := run_flags calls (init st et) t hrun (flagsOk_init st et)
  have hs1 : t.startWasSet = ticPending false calls := hs
  have h1 := toc_eq_none t now hf
  have h2 : t.tocNamed now name = none ↔ t.startWasSet = false :=
    (tocNamed_eq_none t now name).trans h1
  have key : ∀ (u : CPUTimer) (n2 : Timespec), u.stopWasSet = true → u.startWasSet = false →
      u.toc n2 = none ∧ u.tocNamed n2 name = none := by
    intro u n2 h3 h4
    have hu : u.toc n2 = none := by simp [toc, h3, h4]
    exact ⟨hu, (tocNamed_eq_none u n2 name).2 hu⟩
  refine ⟨h1, h2, ?_, ?_, rfl, rfl, ?_, ?_⟩
  · rw [h1, hs1]
  · rw [h2, hs1]
  · intro d t1 now2 htoc
    obtain ⟨-, -, -, rfl⟩ := toc_eq_some t t1 now d htoc
    exact key _ now2 rfl rfl
  · intro t1 now2 htoc
    obtain ⟨d, t0, hd, rfl⟩ := tocNamed_eq_some t t1 now name htoc
    obtain ⟨-, -, -, rfl⟩ := toc_eq_some t t0 now d hd
    exact key _ now2 rfl rfl

/-- C3 after one `tic()`: `toc()` succeeds, and a second `toc()` fails. -/
theorem toc_fails_iff_not_running_witness :
    run (init ⟨0, 0⟩ ⟨0, 0⟩) [Call.tic ⟨5, 0⟩] = some ⟨⟨5, 0⟩, ⟨0, 0⟩, true, false, []⟩ ∧
    (⟨⟨5, 0⟩, ⟨0, 0⟩, true, false, []⟩ : CPUTimer).toc ⟨6, 0⟩ =
      some (⟨1, 0⟩, ⟨⟨5, 0⟩, ⟨6, 0⟩, false, true, []⟩) ∧
    (⟨⟨5, 0⟩, ⟨6, 0⟩, false, true, []⟩ : CPUTimer).toc ⟨7, 0⟩ = none ∧
    (init ⟨0, 0⟩ ⟨0, 0⟩).toc ⟨6, 0⟩ = none := by
  have h := toc_fails_iff_not_running ⟨0, 0⟩ ⟨0, 0⟩ [Call.tic ⟨5, 0⟩]
    ⟨⟨5, 0⟩, ⟨0, 0⟩, true, false, []⟩ (by decide) ⟨6, 0⟩ "x"
  refine ⟨by decide, by decide, ?_, h.2.2.2.2.1⟩
  exact (h.2.2.2.2.2.2.1 ⟨1, 0⟩ ⟨⟨5, 0⟩, ⟨6, 0⟩, false, true, []⟩ ⟨7, 0⟩ (by decide)).1

/-- C4: in every state reachable from a fresh stopwatch by successful `tic()`, `toc()`,
`toc(name)`, `getMeasurements()`, `allTimings()` and `totalTiming()` calls, exactly one
of `startWasSet` and `stopWasSet` is true. -/
theorem flags_exactly_one (st et : Timespec) (calls : List Call) (t : CPUTimer)
    (hrun : run (init st et) calls = some t) :
    (t.startWasSet = true ∧ t.stopWasSet = false) ∨
      (t.startWasSet = false ∧ t.stopWasSet = true) := by
  have hf := flagsOk_of_run st et calls t hrun
  unfold FlagsOk at hf
  rw [hf]
  cases t.startWasSet <;> simp

set_option maxRecDepth 100000 in
/-- C4 after `tic(); toc("a"); allTimings(); tic()`: the stopwatch is running and not
idle. -/
theorem flags_exactly_one_witness :
    run (init ⟨0, 0⟩ ⟨0, 0⟩)
        [Call.tic ⟨5, 0⟩, Call.tocNamed ⟨6, 0⟩ "a", Call.allTimings, Call.tic ⟨7, 0⟩] =
      some ⟨⟨7, 0⟩, ⟨6, 0⟩, true, false, [("a", ⟨false, 127, 0⟩)]⟩ ∧
    ((true = true ∧ false = false) ∨ (true = false ∧ false = true)) := by
  have hrun : run (init ⟨0, 0⟩ ⟨0, 0⟩)
      [Call.tic ⟨5, 0⟩, Call.tocNamed ⟨6, 0⟩ "a", Call.allTimings, Call.tic ⟨7, 0⟩] =
      some ⟨⟨7, 0⟩, ⟨6, 0⟩, true, false, [("a", ⟨false, 127, 0⟩)]⟩ := by decide
  exact ⟨hrun, flags_exactly_one ⟨0, 0⟩ ⟨0, 0⟩ _ _ hrun⟩

end CPUTimer

/-! ## The key order and the map -/

theorem charsLt_irrefl (a : List Char) : charsLt a a = false := by
  induction a with
  | nil => rfl
  | cons c cs ih => simp [charsLt, ih]

theorem charsLt_trans (a b c : List Char) (hab : charsLt a b = true)
    (hbc : charsLt b c = true) : charsLt a c = true := by
  induction a generalizing b c with
  | nil =>
    cases b with
    | nil => simp [charsLt] at hab
    | cons y ys =>
      cases c with
      | nil => simp [charsLt] at hbc
      | cons z zs => simp [charsLt]
  | cons x xs ih =>
    cases b with
    | nil => simp [charsLt] at hab
    | cons y ys =>
      cases c with
      | nil => simp [charsLt] at hbc
      | cons z zs =>
        simp only [charsLt] at hab hbc ⊢
        split at hab
        · split at hbc
          · rw [if_pos (by omega)]
          · split at hbc
            · cases hbc
            · rw [if_pos (by omega)]
        · split at hab
          · cases hab
          · split at hbc
            · rw [if_pos (by omega)]
            · split at hbc
              · cases hbc
              · rw [if_neg (by omega), if_neg (by omega)]
                exact ih ys zs hab hbc

theorem charsLt_connected (a b : List Char) (hab : charsLt a b = false)
    (hba : charsLt b a = false) : a = b := by
  induction a generalizing b with
  | nil =>
    cases b with
    | nil => rfl
    | cons y ys => simp [charsLt] at hab
  | cons x xs ih =>
    cases b with
    | nil => simp [charsLt] at hba
    | cons y ys =>
      simp only [charsLt] at hab hba
      split at hab
      · cases hab
      · split at hab
        · rw [if_pos (by assumption)] at hba
          cases hba
        · rw [if_neg (by assumption), if_neg (by assumption)] at hba
          have hxy : x = y := by
            apply Char.ext
            apply UInt32.ext
            have h1 : x.toNat = y.toNat := by omega
            exact h1
          rw [hxy, ih ys hab hba]

theorem strLt_irrefl (a : String) : strLt a a = false := charsLt_irrefl a.data

theorem strLt_trans (a b c : String) (hab : strLt a b = true) (hbc : strLt b c = true) :
    strLt a c = true := charsLt_trans a.data b.data c.data hab hbc

theorem strLt_connected (a b : String) (hab : strLt a b = false) (hba : strLt b a = false) :
    a = b := by
  have h := charsLt_connected a.data b.data hab hba
  cases a
  cases b
  simp only at h
  rw [h]

theorem strLt_ne (a b : String) (hab : strLt a b = true) : a ≠ b := by
  intro h
  rw [h, strLt_irrefl] at hab
  cases hab

theorem sorted_nil : Sorted [] := List.Pairwise.nil

theorem sorted_cons (e : TimingInfo) (m : List TimingInfo) :
    Sorted (e :: m) ↔ (∀ f ∈ m, strLt e.1 f.1 = true) ∧ Sorted m := List.pairwise_cons

theorem sorted_tail (e : TimingInfo) (m : List TimingInfo) (h : Sorted (e :: m)) :
    Sorted m := ((sorted_cons e m).1 h).2

/-- Membership after `m[k] = v` in a sorted map: the new pair, or an old pair with
another key. -/
theorem mem_mapAssign (m : List TimingInfo) (k : String) (v : F32) (e : TimingInfo)
    (hm : Sorted m) : e ∈ mapAssign m k v ↔ e = (k, v) ∨ (e ∈ m ∧ e.1 ≠ k) := by
  induction m with
  | nil => simp [mapAssign]
  | cons hd rest ih =>
    obtain ⟨k1, v1⟩ := hd
    obtain ⟨hhd, hrest⟩ := (sorted_cons _ _).1 hm
    have ih1 := ih hrest
    simp only [mapAssign]
    split
    · rename_i hlt
      have hall : ∀ f ∈ (k1, v1) :: rest, f.1 ≠ k := by
        intro f hf
        rcases List.mem_cons.1 hf with rfl | hf1
        · exact (strLt_ne k _ hlt).symm
        · exact (strLt_ne k f.1 (strLt_trans k k1 f.1 hlt (hhd f hf1))).symm
      constructor
      · intro h
        rcases List.mem_cons.1 h with h1 | h1
        · exact Or.inl h1
        · exact Or.inr ⟨h1, hall e h1⟩
      · intro h
        rcases h with h1 | ⟨h1, -⟩
        · exact List.mem_cons.2 (Or.inl h1)
        · exact List.mem_cons.2 (Or.inr h1)
    · rename_i hnlt
      split
      · rename_i hlt
        have hk1 : k1 ≠ k := strLt_ne k1 k hlt
        constructor
        · intro h
          rcases List.mem_cons.1 h with h1 | h1
          · right
            rw [h1]
            exact ⟨List.mem_cons_self _ _, hk1⟩
          · rcases ih1.1 h1 with h2 | ⟨h2, h3⟩
            · exact Or.inl h2
            · exact Or.inr ⟨List.mem_cons_of_mem _ h2, h3⟩
        · intro h
          rcases h with h1 | ⟨h1, h2⟩
          · exact List.mem_cons_of_mem _ (ih1.2 (Or.inl h1))
          · rcases List.mem_cons.1 h1 with h3 | h3
            · rw [h3]
              exact List.mem_cons_self _ _
            · exact List.mem_cons_of_mem _ (ih1.2 (Or.inr ⟨h3, h2⟩))
      · rename_i hngt
        have hk : k = k1 := strLt_connected k k1 (by simpa using hnlt) (by simpa using hngt)
        subst hk
        have hall : ∀ f ∈ rest, f.1 ≠ k := by
          intro f hf
          exact (strLt_ne k f.1 (hhd f hf)).symm
        constructor
        · intro h
          rcases List.mem_cons.1 h with h1 | h1
          · exact Or.inl h1
          · exact Or.inr ⟨List.mem_cons_of_mem _ h1, hall e h1⟩
        · intro h
          rcases h with h1 | ⟨h1, h2⟩
          · exact List.mem_cons.2 (Or.inl h1)
          · rcases List.mem_cons.1 h1 with h3 | h3
            · rw [h3] at h2
              exact absurd rfl h2
            · exact List.mem_cons_of_mem _ h3

/-- The assignment `m[k] = v` keeps the entries in strictly ascending key order. -/
theorem sorted_mapAssign (m : List TimingInfo) (k : String) (v : F32) (hm : Sorted m) :
    Sorted (mapAssign m k v) := by
  induction m with
  | nil => simp [mapAssign, Sorted]
  | cons hd rest ih =>
    obtain ⟨k1, v1⟩ := hd
    obtain ⟨hhd, hrest⟩ := (sorted_cons _ _).1 hm
    simp only [mapAssign]
    split
    · rename_i hlt
      refine (sorted_cons _ _).2 ⟨?_, hm⟩
      intro f hf
      rcases List.mem_cons.1 hf with rfl | hf1
      · exact hlt
      · exact strLt_trans k k1 f.1 hlt (hhd f hf1)
    · rename_i hnlt
      split
      · rename_i hlt
        refine (sorted_cons _ _).2 ⟨?_, ih hrest⟩
        intro f hf
        rcases (mem_mapAssign rest k v f hrest).1 hf with rfl | ⟨hf1, -⟩
        · exact hlt
        · exact hhd f hf1
      · rename_i hngt
        have hk : k = k1 := strLt_connected k k1 (by simpa using hnlt) (by simpa using hngt)
        subst hk
        exact (sorted_cons _ _).2 ⟨hhd, hrest⟩

/-- In a sorted map no two entries have the same key. -/
theorem sorted_keys_nodup (m : List TimingInfo) (hm : Sorted m) :
    (m.map Prod.fst).Nodup := by
  unfold List.Nodup
  rw [List.pairwise_map]
  unfold Sorted at hm
  exact hm.imp (fun h => strLt_ne _ _ h)

/-- Lookup in a sorted map finds exactly the pairs that are entries. -/
theorem mapFind_eq_some_iff (m : List TimingInfo) (k : String) (v : F32) (hm : Sorted m) :
    mapFind m k = some v ↔ (k, v) ∈ m := by
  induction m with
  | nil => simp [mapFind]
  | cons hd rest ih =>
    obtain ⟨k1, v1⟩ := hd
    obtain ⟨hhd, hrest⟩ := (sorted_cons _ _).1 hm
    simp only [mapFind]
    split
    · rename_i heq
      subst heq
      constructor
      · intro h
        cases h
        exact List.mem_cons_self _ _
      · intro h
        rcases List.mem_cons.1 h with h1 | h1
        · cases h1
          rfl
        · exact absurd rfl (strLt_ne k1 k1 (hhd _ h1))
    · rename_i hne
      rw [ih hrest]
      constructor
      · intro h
        exact List.mem_cons_of_mem _ h
      · intro h
        rcases List.mem_cons.1 h with h1 | h1
        · cases h1
          exact absurd rfl hne
        · exact h1

theorem mapFind_mapAssign_self (m : List TimingInfo) (k : String) (v : F32) (hm : Sorted m) :
    mapFind (mapAssign m k v) k = some v :=
  (mapFind_eq_some_iff _ k v (sorted_mapAssign m k v hm)).2
    ((mem_mapAssign m k v (k, v) hm).2 (Or.inl rfl))

theorem count_key_mapAssign (m : List TimingInfo) (k : String) (v : F32) (hm : Sorted m) :
    ((mapAssign m k v).map Prod.fst).count k = 1 := by
  apply List.count_eq_one_of_mem (sorted_keys_nodup _ (sorted_mapAssign m k v hm))
  exact List.mem_map.2 ⟨(k, v), (mem_mapAssign m k v (k, v) hm).2 (Or.inl rfl), rfl⟩

/-! ## Named measurements (C5, C8) -/

namespace CPUTimer

theorem step_sorted (t t1 : CPUTimer) (c : Call) (h : step t c = some t1)
    (hm : Sorted t.timingsMap) : Sorted t1.timingsMap := by
  cases c with
  | tic now =>
    obtain ⟨-, -, rfl⟩ := tic_eq_some t t1 now h
    exact hm
  | toc now =>
    simp only [step, Option.map_eq_some', Prod.exists, exists_eq_right] at h
    obtain ⟨d, hd⟩ := h
    obtain ⟨-, -, -, rfl⟩ := toc_eq_some t t1 now d hd
    exact hm
  | tocNamed now name =>
    obtain ⟨d, t0, hd, rfl⟩ := tocNamed_eq_some t t1 now name h
    obtain ⟨-, -, -, rfl⟩ := toc_eq_some t t0 now d hd
    exact sorted_mapAssign _ _ _ hm
  | getMeasurements => cases h; exact hm
  | allTimings => cases h; exact hm
  | totalTiming => cases h; exact hm

theorem run_sorted (calls : List Call) (t t1 : CPUTimer) (h : run t calls = some t1)
    (hm : Sorted t.timingsMap) : Sorted t1.timingsMap := by
  induction calls generalizing t with
  | nil =>
    cases h
    exact hm
  | cons c cs ih =>
    simp only [run, Option.bind_eq_some] at h
    obtain ⟨t0, h0, h1⟩ := h
    exact ih t0 h1 (step_sorted t t0 c h0 hm)

/-- The map of every reachable state is in strictly ascending key order. -/
theorem sorted_of_run (st et : Timespec) (calls : List Call) (t : CPUTimer)
    (h : run (init st et) calls = some t) : Sorted t.timingsMap :=
  run_sorted calls (init st et) t h sorted_nil

/-- A `tic()`/`toc(name)` cycle stores the seconds of its own duration under `name`. -/
theorem cycle_timingsMap (t t1 t2 : CPUTimer) (a b : Timespec) (name : String)
    (h1 : t.tic a = some t1) (h2 : t1.tocNamed b name = some t2) :
    t2.timingsMap = mapAssign t.timingsMap name (toSeconds (elapsed a b)) := by
  obtain ⟨-, -, rfl⟩ := tic_eq_some t t1 a h1
  obtain ⟨d, t0, hd, rfl⟩ := tocNamed_eq_some _ t2 b name h2
  obtain ⟨-, -, rfl, rfl⟩ := toc_eq_some _ t0 b d hd
  rfl

theorem getMeasurements_foldl (m acc : List TimingInfo) :
    m.foldl (fun ti it => ti ++ [(it.1, it.2)]) acc = acc ++ m := by
  induction m generalizing acc with
  | nil => simp
  | cons e rest ih => simp [List.foldl_cons, ih]

theorem getMeasurements_eq (t : CPUTimer) : t.getMeasurements = t.timingsMap := by
  unfold getMeasurements
  rw [getMeasurements_foldl]
  rfl

/-- C5: for every label `x` and two `tic()`/`toc(x)` cycles on a reachable stopwatch
(any successful calls between them), the value stored under `x` after the second
cycle is the seconds of the second cycle's duration alone, it is the only value the
map holds for `x`, and the map has exactly one entry with key `x`. -/
theorem tocNamed_last_write_wins (st et : Timespec) (calls cs : List Call)
    (t0 t1 t2 t3 t4 t5 : CPUTimer) (x : String) (a1 b1 a2 b2 : Timespec)
    (hrun : run (init st et) calls = some t0)
    (h1 : t0.tic a1 = some t1) (h2 : t1.tocNamed b1 x = some t2)
    (hcs : run t2 cs = some t3)
    (h3 : t3.tic a2 = some t4) (h4 : t4.tocNamed b2 x = some t5) :
    mapFind t2.timingsMap x = some (toSeconds (elapsed a1 b1)) ∧
    mapFind t5.timingsMap x = some (toSeconds (elapsed a2 b2)) ∧
    (∀ w, (x, w) ∈ t5.timingsMap → w = toSeconds (elapsed a2 b2)) ∧
    (t5.timingsMap.map Prod.fst).count x = 1 := by
  have hs0 := sorted_of_run st et calls t0 hrun
  have e2 := cycle_timingsMap t0 t1 t2 a1 b1 x h1 h2
  have hs2 : Sorted t2.timingsMap := by
    rw [e2]
    exact sorted_mapAssign _ _ _ hs0
  have hs3 := run_sorted cs t2 t3 hcs hs2
  have e5 := cycle_timingsMap t3 t4 t5 a2 b2 x h3 h4
  rw [e2, e5]
  refine ⟨mapFind_mapAssign_self _ _ _ hs0, mapFind_mapAssign_self _ _ _ hs3, ?_,
    count_key_mapAssign _ _ _ hs3⟩
  intro w hw
  rcases (mem_mapAssign _ x _ (x, w) hs3).1 hw with h | ⟨-, h⟩
  · cases h
    rfl
  · exact absurd rfl h

set_option maxRecDepth 100000 in
/-- C5 on a fresh stopwatch: a cycle of 1 s and then a cycle of 2 s, both stored under
`"x"`, leave the single entry `("x", 2.0f)`. -/
theorem tocNamed_last_write_wins_witness :
    run (init ⟨0, 0⟩ ⟨0, 0⟩)
        [Call.tic ⟨5, 0⟩, Call.tocNamed ⟨6, 0⟩ "x", Call.tic ⟨7, 0⟩, Call.tocNamed ⟨9, 0⟩ "x"] =
      some ⟨⟨7, 0⟩, ⟨9, 0⟩, false, true, [("x", ⟨false, 128, 0⟩)]⟩ ∧
    mapFind [("x", ⟨false, 128, 0⟩)] "x" = some (toSeconds (elapsed ⟨7, 0⟩ ⟨9, 0⟩)) ∧
    toSeconds (elapsed ⟨7, 0⟩ ⟨9, 0⟩) = F32.ofInt 2 := by
  refine ⟨by decide, ?_, by decide⟩
  exact (tocNamed_last_write_wins ⟨0, 0⟩ ⟨0, 0⟩ [] [] (init ⟨0, 0⟩ ⟨0, 0⟩)
    ⟨⟨5, 0⟩, ⟨0, 0⟩, true, false, []⟩
    ⟨⟨5, 0⟩, ⟨6, 0⟩, false, true, [("x", ⟨false, 127, 0⟩)]⟩
    ⟨⟨5, 0⟩, ⟨6, 0⟩, false, true, [("x", ⟨false, 127, 0⟩)]⟩
    ⟨⟨7, 0⟩, ⟨6, 0⟩, true, false, [("x", ⟨false, 127, 0⟩)]⟩
    ⟨⟨7, 0⟩, ⟨9, 0⟩, false, true, [("x", ⟨false, 128, 0⟩)]⟩
    "x" ⟨5, 0⟩ ⟨6, 0⟩ ⟨7, 0⟩ ⟨9, 0⟩
    (by decide) (by decide) (by decide) (by decide) (by decide) (by decide)).2.1

/-- C8: in every reachable state `getMeasurements()` returns the entries of the map in
strictly increasing label order, so no label occurs twice, and a pair
`(label, seconds)` is in the returned sequence exactly when the map holds `seconds`
under `label`. -/
theorem getMeasurements_sorted_complete (st et : Timespec) (calls : List Call)
    (t : CPUTimer) (hrun : run (init st et) calls = some t) :
    t.getMeasurements = t.timingsMap ∧
    t.getMeasurements.Pairwise (fun a b => strLt a.1 b.1 = true) ∧
    (t.getMeasurements.map Prod.fst).Nodup ∧
    (∀ label seconds, (label, seconds) ∈ t.getMeasurements ↔
      mapFind t.timingsMap label = some seconds) := by
  have hs := sorted_of_run st et calls t hrun
  rw [getMeasurements_eq]
  refine ⟨rfl, hs, sorted_keys_nodup _ hs, ?_⟩
  intro label seconds
  exact (mapFind_eq_some_iff _ label seconds hs).symm

set_option maxRecDepth 100000 in
/-- C8 after storing `"b"` and then `"a"`: the sequence is `("a", 2.0f), ("b", 1.0f)`. -/
theorem getMeasurements_sorted_complete_witness :
    run (init ⟨0, 0⟩ ⟨0, 0⟩)
        [Call.tic ⟨5, 0⟩, Call.tocNamed ⟨6, 0⟩ "b", Call.tic ⟨7, 0⟩, Call.tocNamed ⟨9, 0⟩ "a"] =
      some ⟨⟨7, 0⟩, ⟨9, 0⟩, false, true, [("a", ⟨false, 128, 0⟩), ("b", ⟨false, 127, 0⟩)]⟩ ∧
    getMeasurements ⟨⟨7, 0⟩, ⟨9, 0⟩, false, true,
        [("a", ⟨false, 128, 0⟩), ("b", ⟨false, 127, 0⟩)]⟩ =
      [("a", ⟨false, 128, 0⟩), ("b", ⟨false, 127, 0⟩)] := by
  have hrun : run (init ⟨0, 0⟩ ⟨0, 0⟩)
      [Call.tic ⟨5, 0⟩, Call.tocNamed ⟨6, 0⟩ "b", Call.tic ⟨7, 0⟩, Call.tocNamed ⟨9, 0⟩ "a"] =
      some ⟨⟨7, 0⟩, ⟨9, 0⟩, false, true,
        [("a", ⟨false, 128, 0⟩), ("b", ⟨false, 127, 0⟩)]⟩ := by decide
  exact ⟨hrun, (getMeasurements_sorted_complete ⟨0, 0⟩ ⟨0, 0⟩ _ _ hrun).1⟩

end CPUTimer

/-! ## The total (C6) -/

theorem F32.toRat_ofInt_zero : (F32.ofInt 0).toRat = 0 := by
  simp [F32.toRat, F32.signedSig, F32.sig, F32.ofInt, F32.zero]

theorem F32.foldl_add_exact (vs : List F32) (acc : F32) (h : F32.SumExact acc vs) :
    (vs.foldl F32.add acc).toRat = acc.toRat + (vs.map F32.toRat).sum := by
  induction vs generalizing acc with
  | nil => simp
  | cons v rest ih =>
    obtain ⟨-, h1, h2⟩ := h
    rw [List.foldl_cons, ih _ h2, h1, List.map_cons, List.sum_cons]
    ring

theorem valuesSum_cons (e : TimingInfo) (m : List TimingInfo) :
    valuesSum (e :: m) = e.2.toRat + valuesSum m := by
  simp [valuesSum]

theorem mapFind_eq_none_of_lt (m : List TimingInfo) (k : String)
    (h : ∀ f ∈ m, strLt k f.1 = true) : mapFind m k = none := by
  induction m with
  | nil => rfl
  | cons hd rest ih =>
    obtain ⟨k1, v1⟩ := hd
    have h1 : k1 ≠ k := (strLt_ne k k1 (h _ (List.mem_cons_self _ _))).symm
    simp only [mapFind, if_neg h1]
    exact ih (fun f hf => h f (List.mem_cons_of_mem _ hf))

/-- Exact sum of the values after `m[k] = v`: the old sum, plus `v`, minus the value
that `k` held before. -/
theorem valuesSum_mapAssign (m : List TimingInfo) (k : String) (v : F32) (hm : Sorted m) :
    valuesSum (mapAssign m k v) =
      valuesSum m + v.toRat - (match mapFind m k with
        | some u => u.toRat
        | none => 0) := by
  induction m with
  | nil => simp [mapAssign, mapFind, valuesSum]
  | cons hd rest ih =>
    obtain ⟨k1, v1⟩ := hd
    obtain ⟨hhd, hrest⟩ := (sorted_cons _ _).1 hm
    simp only [mapAssign]
    split
    · rename_i hlt
      have hnone : mapFind ((k1, v1) :: rest) k = none := by
        apply mapFind_eq_none_of_lt
        intro f hf
        rcases List.mem_cons.1 hf with rfl | hf1
        · exact hlt
        · exact strLt_trans k k1 f.1 hlt (hhd f hf1)
      rw [hnone, valuesSum_cons]
      simp only
      ring
    · rename_i hnlt
      split
      · rename_i hlt
        have hk1 : k1 ≠ k := strLt_ne k1 k hlt
        rw [valuesSum_cons, ih hrest, valuesSum_cons]
        simp only [mapFind, if_neg hk1]
        ring
      · rename_i hngt
        have hk : k = k1 := strLt_connected k k1 (by simpa using hnlt) (by simpa using hngt)
        subst hk
        rw [valuesSum_cons, valuesSum_cons]
        simp only [mapFind, if_true]
        ring

namespace CPUTimer

theorem totalTiming_eq_foldl (t : CPUTimer) :
    t.totalTiming = (t.timingsMap.map Prod.snd).foldl F32.add (F32.ofInt 0) := by
  unfold totalTiming
  rw [List.foldl_map]

theorem totalTiming_toRat (t : CPUTimer) (h : t.TotalExact) :
    t.totalTiming.toRat = valuesSum t.timingsMap := by
  rw [totalTiming_eq_foldl, F32.foldl_add_exact _ _ h, F32.toRat_ofInt_zero, zero_add]
  simp [valuesSum, List.map_map, Function.comp_def]

set_option maxRecDepth 100000 in
/-- C6 fails as stated.  After `toc("b")` and `toc("c")` of 1 s each the total is 2.0f;
a cycle of 16777216 s stored under the new label `"a"` makes the total 16777216.0f: it
has grown by 16777214, not by the stored value 16777216, and it is not the `float` sum
`2.0f + 16777216.0f = 16777218.0f` either. -/
theorem totalTiming_delta_counterexample :
    run (init ⟨0, 0⟩ ⟨0, 0⟩)
        [Call.tic ⟨0, 0⟩, Call.tocNamed ⟨1, 0⟩ "b", Call.tic ⟨1, 0⟩, Call.tocNamed ⟨2, 0⟩ "c"] =
      some ⟨⟨1, 0⟩, ⟨2, 0⟩, false, true, [("b", F32.ofInt 1), ("c", F32.ofInt 1)]⟩ ∧
    run ⟨⟨1, 0⟩, ⟨2, 0⟩, false, true, [("b", F32.ofInt 1), ("c", F32.ofInt 1)]⟩
        [Call.tic ⟨2, 0⟩, Call.tocNamed ⟨16777218, 0⟩ "a"] =
      some ⟨⟨2, 0⟩, ⟨16777218, 0⟩, false, true,
        [("a", F32.ofInt 16777216), ("b", F32.ofInt 1), ("c", F32.ofInt 1)]⟩ ∧
    mapFind [("b", F32.ofInt 1), ("c", F32.ofInt 1)] "a" = none ∧
    totalTiming ⟨⟨1, 0⟩, ⟨2, 0⟩, false, true, [("b", F32.ofInt 1), ("c", F32.ofInt 1)]⟩ =
      F32.ofInt 2 ∧
    totalTiming ⟨⟨2, 0⟩, ⟨16777218, 0⟩, false, true,
        [("a", F32.ofInt 16777216), ("b", F32.ofInt 1), ("c", F32.ofInt 1)]⟩ =
      F32.ofInt 16777216 ∧
    (F32.ofInt 16777216).toRat ≠ (F32.ofInt 2).toRat + (F32.ofInt 16777216).toRat ∧
    F32.ofInt 16777216 ≠ F32.add (F32.ofInt 2) (F32.ofInt 16777216) := by
  have e1 : F32.ofInt 1 = ⟨false, 127, 0⟩ := by decide
  have e2 : F32.ofInt 2 = ⟨false, 128, 0⟩ := by decide
  have e3 : F32.ofInt 16777216 = ⟨false, 151, 0⟩ := by decide
  rw [e1, e2, e3]
  refine ⟨by decide, by decide, by decide, by decide, by decide, ?_, by decide⟩
  norm_num [F32.toRat, F32.signedSig, F32.sig, F32.exp2]

/-- C6, amended: `totalTiming()` is the `float` sum of the stored values, accumulated
from 0 in ascending label order; when no addition of that sum rounds it is the exact
sum of the stored values, and when that holds before and after a `tic()`/`toc(x)` cycle
that stores `v`, the total grows by exactly `v` if `x` was not yet a label and changes
by exactly `v - u` if `x` held `u`. -/
theorem totalTiming_delta_when_exact (st et : Timespec) (calls : List Call)
    (t t1 t2 : CPUTimer) (now1 now2 : Timespec) (x : String)
    (hrun : run (init st et) calls = some t)
    (htic : t.tic now1 = some t1) (htoc : t1.tocNamed now2 x = some t2) :
    t.totalTiming = (t.getMeasurements.map Prod.snd).foldl F32.add (F32.ofInt 0) ∧
    (t.TotalExact → t.totalTiming.toRat = valuesSum t.timingsMap) ∧
    mapFind t2.timingsMap x = some (toSeconds (elapsed now1 now2)) ∧
    (t.TotalExact → t2.TotalExact →
      (mapFind t.timingsMap x = none →
        t2.totalTiming.toRat =
          t.totalTiming.toRat + (toSeconds (elapsed now1 now2)).toRat) ∧
      (∀ u, mapFind t.timingsMap x = some u →
        t2.totalTiming.toRat =
          t.totalTiming.toRat + ((toSeconds (elapsed now1 now2)).toRat - u.toRat))) := by
  have hs := sorted_of_run st et calls t hrun
  have e2 := cycle_timingsMap t t1 t2 now1 now2 x htic htoc
  refine ⟨?_, totalTiming_toRat t, ?_, ?_⟩
  · rw [getMeasurements_eq]
    exact totalTiming_eq_foldl t
  · rw [e2]
    exact mapFind_mapAssign_self _ _ _ hs
  · intro he he2
    have h1 := totalTiming_toRat t he
    have h2 := totalTiming_toRat t2 he2
    rw [e2, valuesSum_mapAssign _ _ _ hs] at h2
    constructor
    · intro hnone
      rw [hnone] at h2
      rw [h2, h1]
      simp
    · intro u hu
      rw [hu] at h2
      rw [h2, h1]
      simp only
      ring

set_option maxRecDepth 100000 in
/-- C6, amended, after `toc("b")` of 1 s: a cycle of 2 s stored under the new label
`"a"` takes the total exactly from 1 to 3. -/
theorem totalTiming_delta_when_exact_witness :
    run (init ⟨0, 0⟩ ⟨0, 0⟩) [Call.tic ⟨0, 0⟩, Call.tocNamed ⟨1, 0⟩ "b"] =
      some ⟨⟨0, 0⟩, ⟨1, 0⟩, false, true, [("b", ⟨false, 127, 0⟩)]⟩ ∧
    TotalExact ⟨⟨0, 0⟩, ⟨1, 0⟩, false, true, [("b", ⟨false, 127, 0⟩)]⟩ ∧
    TotalExact ⟨⟨1, 0⟩, ⟨3, 0⟩, false, true,
      [("a", ⟨false, 128, 0⟩), ("b", ⟨false, 127, 0⟩)]⟩ ∧
    mapFind [("b", ⟨false, 127, 0⟩)] "a" = none ∧
    (totalTiming ⟨⟨1, 0⟩, ⟨3, 0⟩, false, true,
        [("a", ⟨false, 128, 0⟩), ("b", ⟨false, 127, 0⟩)]⟩).toRat =
      (totalTiming ⟨⟨0, 0⟩, ⟨1, 0⟩, false, true, [("b", ⟨false, 127, 0⟩)]⟩).toRat +
        (toSeconds (elapsed ⟨1, 0⟩ ⟨3, 0⟩)).toRat := by
  have hrun : run (init ⟨0, 0⟩ ⟨0, 0⟩) [Call.tic ⟨0, 0⟩, Call.tocNamed ⟨1, 0⟩ "b"] =
      some ⟨⟨0, 0⟩, ⟨1, 0⟩, false, true, [("b", ⟨false, 127, 0⟩)]⟩ := by decide
  have a1 : F32.add (F32.ofInt 0) ⟨false, 127, 0⟩ = ⟨false, 127, 0⟩ := by decide
  have a2 : F32.add (F32.ofInt 0) ⟨false, 128, 0⟩ = ⟨false, 128, 0⟩ := by decide
  have a3 : F32.add ⟨false, 128, 0⟩ ⟨false, 127, 0⟩ = ⟨false, 128, 4194304⟩ := by decide
  have z : F32.ofInt 0 = ⟨false, 0, 0⟩ := by decide
  have he : TotalExact ⟨⟨0, 0⟩, ⟨1, 0⟩, false, true, [("b", ⟨false, 127, 0⟩)]⟩ := by
    simp only [TotalExact, List.map_cons, List.map_nil, F32.SumExact, a1, and_true]
    refine ⟨by decide, ?_⟩
    rw [z]
    norm_num [F32.toRat, F32.signedSig, F32.sig, F32.exp2]
  have he2 : TotalExact ⟨⟨1, 0⟩, ⟨3, 0⟩, false, true,
      [("a", ⟨false, 128, 0⟩), ("b", ⟨false, 127, 0⟩)]⟩ := by
    simp only [TotalExact, List.map_cons, List.map_nil, F32.SumExact, a2, a3, and_true]
    refine ⟨by decide, ?_, by decide, ?_⟩
    · rw [z]
      norm_num [F32.toRat, F32.signedSig, F32.sig, F32.exp2]
    · norm_num [F32.toRat, F32.signedSig, F32.sig, F32.exp2]
  refine ⟨hrun, he, he2, by decide, ?_⟩
  exact ((totalTiming_delta_when_exact ⟨0, 0⟩ ⟨0, 0⟩ _ _
    ⟨⟨1, 0⟩, ⟨1, 0⟩, true, false, [("b", ⟨false, 127, 0⟩)]⟩
    ⟨⟨1, 0⟩, ⟨3, 0⟩, false, true, [("a", ⟨false, 128, 0⟩), ("b", ⟨false, 127, 0⟩)]⟩
    ⟨1, 0⟩ ⟨3, 0⟩ "a" hrun (by decide) (by decide)).2.2.2 he he2).1 (by decide)

end CPUTimer

/-! ## The report (C7, C9, C10) -/

theorem splitLines_ne_nil (l : List Char) : splitLines l ≠ [] := by
  cases l with
  | nil => simp [splitLines]
  | cons c cs =>
    simp only [splitLines]
    split
    · simp
    · split <;> simp

theorem splitLines_append_newline (a rest : List Char) (h : '\n' ∉ a) :
    splitLines (a ++ '\n' :: rest) = a :: splitLines rest := by
  induction a with
  | nil => simp [splitLines]
  | cons c cs ih =>
    have hc : c ≠ '\n' := fun e => h (e ▸ List.mem_cons_self _ _)
    have hcs : '\n' ∉ cs := fun e => h (List.mem_cons_of_mem _ e)
    have e : splitLines (c :: (cs ++ '\n' :: rest)) = (c :: cs) :: splitLines rest := by
      rw [splitLines, if_neg hc, ih hcs]
    exact e

theorem splitLines_of_not_mem (a : List Char) (h : '\n' ∉ a) : splitLines a = [a] := by
  induction a with
  | nil => rfl
  | cons c cs ih =>
    have hc : c ≠ '\n' := fun e => h (e ▸ List.mem_cons_self _ _)
    have hcs : '\n' ∉ cs := fun e => h (List.mem_cons_of_mem _ e)
    simp only [splitLines, if_neg hc, ih hcs]

theorem length_splitLines (l : List Char) : (splitLines l).length = l.count '\n' + 1 := by
  induction l with
  | nil => rfl
  | cons c cs ih =>
    rw [splitLines]
    split
    · rename_i hc
      subst hc
      simp [ih]
    · rename_i hc
      have hc2 : (c == '\n') = false := by
        simp only [beq_eq_false_iff_ne, ne_eq]
        exact hc
      rw [List.count_cons, hc2]
      cases hl : splitLines cs with
      | nil => exact absurd hl (splitLines_ne_nil cs)
      | cons l ls =>
        rw [hl] at ih
        simp only [List.length_cons] at ih ⊢
        simp only [Bool.false_eq_true, if_false, Nat.add_zero]
        exact ih

namespace CPUTimer

theorem setwLeft_data (w : Nat) (s : String) :
    (setwLeft w s).data = s.data ++ List.replicate (w - s.length) ' ' := by
  simp [setwLeft]

theorem entryText_data (render : F32 → String) (it : TimingInfo) :
    (entryText render it).data = (labelLine render it).data ++ ['\n'] := by
  simp [entryText, labelLine]

theorem allTimings_foldl_data (render : F32 → String) (m : List TimingInfo) (acc : String) :
    (m.foldl (fun ss it => ss ++ entryText render it) acc).data =
      acc.data ++ (m.map (fun it => (labelLine render it).data ++ ['\n'])).flatten := by
  induction m generalizing acc with
  | nil => simp
  | cons e rest ih =>
    rw [List.foldl_cons, ih, String.data_append, entryText_data]
    simp

/-- The characters of the report: per map entry its line and a newline, then the
final line. -/
theorem allTimings_data (render : F32 → String) (t : CPUTimer) :
    (allTimings render t).data =
      (t.timingsMap.map (fun it => (labelLine render it).data ++ ['\n'])).flatten ++
        (totLine render t).data := by
  unfold allTimings totLine
  simp only [String.data_append, allTimings_foldl_data]
  simp

theorem labelLine_no_newline (render : F32 → String) (it : TimingInfo)
    (h1 : '\n' ∉ it.1.data) (h2 : '\n' ∉ (render it.2).data) :
    '\n' ∉ (labelLine render it).data := by
  simp only [labelLine, String.data_append, setwLeft_data, List.mem_append, not_or]
  refine ⟨⟨⟨⟨h1, ?_⟩, by decide⟩, h2⟩, by decide⟩
  intro h
  have := List.eq_of_mem_replicate h
  exact absurd this (by decide)

theorem totLine_no_newline (render : F32 → String) (t : CPUTimer)
    (h2 : ∀ v, '\n' ∉ (render v).data) : '\n' ∉ (totLine render t).data := by
  simp only [totLine, String.data_append, List.mem_append, not_or]
  exact ⟨⟨by decide, h2 _⟩, by decide⟩

theorem splitLines_report (render : F32 → String) (m : List TimingInfo) (last : List Char)
    (hlab : ∀ e ∈ m, '\n' ∉ e.1.data) (hren : ∀ v, '\n' ∉ (render v).data)
    (hlast : '\n' ∉ last) :
    splitLines ((m.map (fun it => (labelLine render it).data ++ ['\n'])).flatten ++ last) =
      m.map (fun it => (labelLine render it).data) ++ [last] := by
  induction m with
  | nil => simpa using splitLines_of_not_mem last hlast
  | cons e rest ih =>
    have h1 := labelLine_no_newline render e (hlab e (List.mem_cons_self _ _)) (hren e.2)
    have ih1 := ih (fun f hf => hlab f (List.mem_cons_of_mem _ hf))
    simp only [List.map_cons, List.flatten_cons, List.append_assoc, List.singleton_append,
      List.cons_append]
    rw [splitLines_append_newline _ _ h1, List.nil_append, ih1]

/-- The lines of the report when neither a label nor a rendered number contains a
newline: one line per map entry, in map order, and the final line. -/
theorem textLines_allTimings (render : F32 → String) (t : CPUTimer)
    (hlab : ∀ e ∈ t.timingsMap, '\n' ∉ e.1.data) (hren : ∀ v, '\n' ∉ (render v).data) :
    textLines (allTimings render t) =
      t.timingsMap.map (labelLine render) ++ [totLine render t] := by
  unfold textLines
  rw [allTimings_data, splitLines_report render _ _ hlab hren (totLine_no_newline render t hren)]
  simp [List.map_map, Function.comp_def]

theorem string_append_left_cancel (a b c : String) (h : a ++ b = a ++ c) : b = c := by
  have h1 : (a ++ b).data = (a ++ c).data := by rw [h]
  rw [String.data_append, String.data_append] at h1
  have h2 := List.append_cancel_left h1
  cases b
  cases c
  simp only at h2
  rw [h2]

set_option maxRecDepth 100000 in
/-- C7 fails as stated.  After `tic(); toc("a\nb")` the map holds one label, and the
report has three lines, not two, whatever the rendering of numbers is. -/
theorem allTimings_lines_counterexample :
    run (init ⟨0, 0⟩ ⟨0, 0⟩) [Call.tic ⟨0, 0⟩, Call.tocNamed ⟨1, 0⟩ "a\nb"] =
      some ⟨⟨0, 0⟩, ⟨1, 0⟩, false, true, [("a\nb", ⟨false, 127, 0⟩)]⟩ ∧
    getMeasurements ⟨⟨0, 0⟩, ⟨1, 0⟩, false, true, [("a\nb", ⟨false, 127, 0⟩)]⟩ =
      [("a\nb", ⟨false, 127, 0⟩)] ∧
    textLines (allTimings (fun _ => "1")
        ⟨⟨0, 0⟩, ⟨1, 0⟩, false, true, [("a\nb", ⟨false, 127, 0⟩)]⟩) =
      ["a", "b                 :\t1 sec", "TOT:\t1 sec"] ∧
    (∀ render : F32 → String, (textLines (allTimings render
        ⟨⟨0, 0⟩, ⟨1, 0⟩, false, true, [("a\nb", ⟨false, 127, 0⟩)]⟩)).length ≠ 1 + 1) := by
  refine ⟨by decide, by decide, by decide, ?_⟩
  intro render
  unfold textLines
  rw [List.length_map, length_splitLines, allTimings_data]
  simp only [List.map_cons, List.map_nil, List.flatten_cons, List.flatten_nil,
    List.append_nil, labelLine, String.data_append, setwLeft_data, List.count_append]
  have h1 : List.count '\n' "a\nb".data = 1 := by decide
  have h2 : List.count '\n' ['\n'] = 1 := by decide
  rw [h1, h2]
  omega

/-- C7, amended: in every reachable state in which no label contains a newline, and
with numbers rendered without newlines, the report consists of exactly `n + 1` lines
for the `n` distinct labels: one line per label in ascending label order, then one line
that starts with `TOT:` and carries the rendering of the value `totalTiming()` returns
in that state, with no newline after it. -/
theorem allTimings_lines (render : F32 → String) (st et : Timespec) (calls : List Call)
    (t : CPUTimer) (hrun : run (init st et) calls = some t)
    (hlab : ∀ e ∈ t.timingsMap, '\n' ∉ e.1.data) (hren : ∀ v, '\n' ∉ (render v).data) :
    textLines (allTimings render t) =
      t.getMeasurements.map (labelLine render) ++ [totLine render t] ∧
    (textLines (allTimings render t)).length = t.getMeasurements.length + 1 ∧
    t.getMeasurements.Pairwise (fun a b => strLt a.1 b.1 = true) ∧
    (t.getMeasurements.map Prod.fst).Nodup ∧
    (totLine render t).data =
      'T' :: 'O' :: 'T' :: ':' :: '\t' :: ((render t.totalTiming).data ++ [' ', 's', 'e', 'c']) ∧
    (allTimings render t).data.getLast? = some 'c' := by
  have hs := sorted_of_run st et calls t hrun
  have hl := textLines_allTimings render t hlab hren
  rw [getMeasurements_eq]
  refine ⟨hl, ?_, hs, sorted_keys_nodup _ hs, ?_, ?_⟩
  · rw [hl]
    simp
  · simp [totLine]
  · rw [allTimings_data]
    have e : (totLine render t).data =
        ('T' :: 'O' :: 'T' :: ':' :: '\t' :: ((render t.totalTiming).data ++ [' ', 's', 'e'])) ++
          ['c'] := by
      simp [totLine]
    rw [e, ← List.append_assoc, List.getLast?_concat]

set_option maxRecDepth 100000 in
/-- C7, amended, after storing `"b"` and `"a"`: three lines. -/
theorem allTimings_lines_witness :
    run (init ⟨0, 0⟩ ⟨0, 0⟩)
        [Call.tic ⟨5, 0⟩, Call.tocNamed ⟨6, 0⟩ "b", Call.tic ⟨7, 0⟩, Call.tocNamed ⟨9, 0⟩ "a"] =
      some ⟨⟨7, 0⟩, ⟨9, 0⟩, false, true, [("a", ⟨false, 128, 0⟩), ("b", ⟨false, 127, 0⟩)]⟩ ∧
    textLines (allTimings (fun _ => "1") ⟨⟨7, 0⟩, ⟨9, 0⟩, false, true,
        [("a", ⟨false, 128, 0⟩), ("b", ⟨false, 127, 0⟩)]⟩) =
      ["a                   :\t1 sec", "b                   :\t1 sec", "TOT:\t1 sec"] := by
  have hrun : run (init ⟨0, 0⟩ ⟨0, 0⟩)
      [Call.tic ⟨5, 0⟩, Call.tocNamed ⟨6, 0⟩ "b", Call.tic ⟨7, 0⟩, Call.tocNamed ⟨9, 0⟩ "a"] =
      some ⟨⟨7, 0⟩, ⟨9, 0⟩, false, true,
        [("a", ⟨false, 128, 0⟩), ("b", ⟨false, 127, 0⟩)]⟩ := by decide
  refine ⟨hrun, ?_⟩
  rw [(allTimings_lines (fun _ => "1") ⟨0, 0⟩ ⟨0, 0⟩ _ _ hrun (by decide)
    (fun _ => show '\n' ∉ "1".data by decide)).1]
  decide

set_option maxRecDepth 100000 in
/-- C9 fails as stated.  The character between the number and `sec` is a space, on the
label line of a one-entry report and on the final line; for every rendering of numbers
the report of a fresh stopwatch is `TOT:`, TAB, the number, SPACE, `sec`, which is not
the text with a TAB before `sec`. -/
theorem allTimings_separator_counterexample :
    run (init ⟨0, 0⟩ ⟨0, 0⟩) [Call.tic ⟨0, 0⟩, Call.tocNamed ⟨1, 0⟩ "a"] =
      some ⟨⟨0, 0⟩, ⟨1, 0⟩, false, true, [("a", ⟨false, 127, 0⟩)]⟩ ∧
    allTimings (fun _ => "1") ⟨⟨0, 0⟩, ⟨1, 0⟩, false, true, [("a", ⟨false, 127, 0⟩)]⟩ =
      "a                   :\t1 sec\nTOT:\t1 sec" ∧
    allTimings (fun _ => "1") ⟨⟨0, 0⟩, ⟨1, 0⟩, false, true, [("a", ⟨false, 127, 0⟩)]⟩ ≠
      "a                   :\t1\tsec\nTOT:\t1\tsec" ∧
    (∀ render : F32 → String,
      allTimings render (init ⟨0, 0⟩ ⟨0, 0⟩) = "TOT:\t" ++ render (F32.ofInt 0) ++ " sec" ∧
      allTimings render (init ⟨0, 0⟩ ⟨0, 0⟩) ≠ "TOT:\t" ++ render (F32.ofInt 0) ++ "\tsec") := by
  refine ⟨by decide, by decide, by decide, ?_⟩
  intro render
  have e : allTimings render (init ⟨0, 0⟩ ⟨0, 0⟩) =
      "TOT:\t" ++ render (F32.ofInt 0) ++ " sec" := by
    simp [allTimings, init, totalTiming]
  refine ⟨e, ?_⟩
  rw [e]
  intro h
  have h1 := string_append_left_cancel _ _ _ h
  exact absurd h1 (by decide)

/-- C9, amended: the report is, for every map entry in ascending label order, the label
field, `:`, TAB, the seconds, SPACE, `sec` and a newline, followed by exactly `TOT:`,
TAB, the total seconds, SPACE, `sec`: the separator between the number and the word
`sec` is a space character, on label lines and on the final line. -/
theorem allTimings_format (render : F32 → String) (t : CPUTimer) :
    (allTimings render t).data =
      (t.getMeasurements.map (fun it =>
        (setwLeft 20 it.1).data ++
          ':' :: '\t' :: ((render it.2).data ++ [' ', 's', 'e', 'c', '\n']))).flatten ++
        'T' :: 'O' :: 'T' :: ':' :: '\t' ::
          ((render t.totalTiming).data ++ [' ', 's', 'e', 'c']) := by
  rw [allTimings_data, getMeasurements_eq]
  simp [labelLine, totLine]

set_option maxRecDepth 100000 in
/-- C10 fails as stated.  A label of 21 characters is written in full: its label field
has 21 characters, not 20, and the `:` follows at column 21, where a short label has it
at column 20. -/
theorem allTimings_truncation_counterexample :
    run (init ⟨0, 0⟩ ⟨0, 0⟩) [Call.tic ⟨0, 0⟩, Call.tocNamed ⟨1, 0⟩ "aaaaaaaaaaaaaaaaaaaaa"] =
      some ⟨⟨0, 0⟩, ⟨1, 0⟩, false, true, [("aaaaaaaaaaaaaaaaaaaaa", ⟨false, 127, 0⟩)]⟩ ∧
    allTimings (fun _ => "1")
        ⟨⟨0, 0⟩, ⟨1, 0⟩, false, true, [("aaaaaaaaaaaaaaaaaaaaa", ⟨false, 127, 0⟩)]⟩ =
      "aaaaaaaaaaaaaaaaaaaaa:\t1 sec\nTOT:\t1 sec" ∧
    (setwLeft 20 "aaaaaaaaaaaaaaaaaaaaa").length = 21 ∧
    (∀ render : F32 → String,
      (labelLine render ("aaaaaaaaaaaaaaaaaaaaa", ⟨false, 127, 0⟩)).data[20]? = some 'a' ∧
      (labelLine render ("aaaaaaaaaaaaaaaaaaaaa", ⟨false, 127, 0⟩)).data[21]? = some ':' ∧
      (labelLine render ("a", ⟨false, 127, 0⟩)).data[20]? = some ':') := by
  refine ⟨by decide, by decide, by decide, ?_⟩
  intro render
  simp [labelLine, setwLeft, List.replicate]

/-- C10, amended: in the report the label field of every map entry is the label
followed by as many spaces as it has fewer than 20 characters, and none when it has 20
or more: a shorter label is left-aligned and padded to 20 characters, a longer label
is written in full, and the `:` sits at column `max 20 (length of the label)`. -/
theorem allTimings_label_field (render : F32 → String) (t : CPUTimer) :
    (allTimings render t).data =
      (t.getMeasurements.map (fun it => (labelLine render it).data ++ ['\n'])).flatten ++
        (totLine render t).data ∧
    (∀ it : TimingInfo,
      (labelLine render it).data =
        (setwLeft 20 it.1).data ++ ':' :: '\t' :: ((render it.2).data ++ [' ', 's', 'e', 'c']) ∧
      (setwLeft 20 it.1).data = it.1.data ++ List.replicate (20 - it.1.length) ' ' ∧
      (setwLeft 20 it.1).length = max 20 it.1.length ∧
      (labelLine render it).data[max 20 it.1.length]? = some ':') := by
  refine ⟨?_, ?_⟩
  · rw [allTimings_data, getMeasurements_eq]
  · intro it
    have h1 : (labelLine render it).data =
        (setwLeft 20 it.1).data ++
          ':' :: '\t' :: ((render it.2).data ++ [' ', 's', 'e', 'c']) := by
      simp [labelLine]
    have h2 : (setwLeft 20 it.1).length = max 20 it.1.length := by
      show (setwLeft 20 it.1).data.length = _
      rw [setwLeft_data, List.length_append, List.length_replicate]
      show it.1.length + (20 - it.1.length) = _
      omega
    refine ⟨h1, setwLeft_data 20 it.1, h2, ?_⟩
    rw [h1, ← h2]
    show ((setwLeft 20 it.1).data ++ _)[(setwLeft 20 it.1).data.length]? = _
    rw [List.getElem?_append_right (Nat.le_refl _)]
    simp

end CPUTimer

/-! ## Labelled stop against plain stop (C11) -/

namespace CPUTimer

theorem lit1e9f_eq : lit1e9f = F32.ofInt 1000000000 := by
  simp [lit1e9f, F32.ofInt]

theorem tocNamed_eq_spec (t : CPUTimer) (now : Timespec) (name : String) :
    t.tocNamed now name = specTocNamed t now name := by
  unfold tocNamed specTocNamed
  cases h : t.toc now with
  | none => rfl
  | some r =>
    obtain ⟨d, t1⟩ := r
    simp [toSeconds, lit1e9f_eq]

set_option maxRecDepth 100000 in
theorem toSeconds_fifth :
    toSeconds ⟨0, 200000000⟩ = ⟨false, 124, 5033165⟩ ∧
      F32.round false 1 5 = ⟨false, 124, 5033165⟩ := by
  constructor <;> decide

set_option maxRecDepth 100000 in
/-- The stored value is the `float` evaluation of `tv_sec + tv_nsec / 1e9f`, with the
rounding of each conversion and operation: for `(0, 16777217)` it is one unit in the
last place below the `float` nearest to the exact quotient. -/
theorem toSeconds_rounds_stepwise :
    toSeconds ⟨0, 16777217⟩ = ⟨false, 121, 618591⟩ ∧
      F32.round false 16777217 1000000000 = ⟨false, 121, 618592⟩ := by
  constructor <;> decide

/-- C11: in every reachable state and for every clock reading, `toc(name)` is the
labelled stop of the specification: it fails exactly when `toc()` fails, and when
`toc()` returns the duration `d` and leaves `t1`, `toc(name)` leaves the same flags and
timestamps as `t1` and the map holds under `name` the `float` value
`d.tv_sec + d.tv_nsec / 1e9f`; for `(0, 200000000)` that value is the `float` 0.2. -/
theorem tocNamed_refines_toc (st et : Timespec) (calls : List Call) (t : CPUTimer)
    (hrun : run (init st et) calls = some t) (now : Timespec) (name : String) :
    t.tocNamed now name = specTocNamed t now name ∧
    (t.tocNamed now name = none ↔ t.toc now = none) ∧
    (∀ d t1, t.toc now = some (d, t1) →
      ∃ t2, t.tocNamed now name = some t2 ∧
        t2.startWasSet = t1.startWasSet ∧ t2.stopWasSet = t1.stopWasSet ∧
        t2.startTime = t1.startTime ∧ t2.endTime = t1.endTime ∧
        mapFind t2.timingsMap name =
          some (F32.add (F32.ofInt d.tv_sec)
            (F32.div (F32.ofInt d.tv_nsec) (F32.ofInt 1000000000)))) ∧
    F32.add (F32.ofInt 0) (F32.div (F32.ofInt 200000000) (F32.ofInt 1000000000)) =
      F32.round false 1 5 := by
  have hs := sorted_of_run st et calls t hrun
  refine ⟨tocNamed_eq_spec t now name, tocNamed_eq_none t now name, ?_, ?_⟩
  · intro d t1 htoc
    obtain ⟨-, -, -, rfl⟩ := toc_eq_some t t1 now d htoc
    refine ⟨{ startTime := t.startTime, endTime := now, startWasSet := false,
               stopWasSet := true,
               timingsMap := mapAssign t.timingsMap name
                 (F32.add (F32.ofInt d.tv_sec)
                   (F32.div (F32.ofInt d.tv_nsec) (F32.ofInt 1000000000))) },
      ?_, rfl, rfl, rfl, rfl, ?_⟩
    · rw [tocNamed_eq_spec]
      simp only [specTocNamed, htoc, Option.map_some']
    · exact mapFind_mapAssign_self _ _ _ hs
  · have h := toSeconds_fifth
    rw [h.2, ← h.1, toSeconds, lit1e9f_eq]

set_option maxRecDepth 100000 in
/-- C11 after `tic()` at `(10, 900000000)`: `toc()` at `(11, 100000000)` returns
`(0, 200000000)`, and `toc("x")` stores the `float` 0.2 under `"x"`. -/
theorem tocNamed_refines_toc_witness :
    run (init ⟨0, 0⟩ ⟨0, 0⟩) [Call.tic ⟨10, 900000000⟩] =
      some ⟨⟨10, 900000000⟩, ⟨0, 0⟩, true, false, []⟩ ∧
    toc ⟨⟨10, 900000000⟩, ⟨0, 0⟩, true, false, []⟩ ⟨11, 100000000⟩ =
      some (⟨0, 200000000⟩, ⟨⟨10, 900000000⟩, ⟨11, 100000000⟩, false, true, []⟩) ∧
    tocNamed ⟨⟨10, 900000000⟩, ⟨0, 0⟩, true, false, []⟩ ⟨11, 100000000⟩ "x" =
      some ⟨⟨10, 900000000⟩, ⟨11, 100000000⟩, false, true, [("x", ⟨false, 124, 5033165⟩)]⟩ ∧
    (∃ t2, tocNamed ⟨⟨10, 900000000⟩, ⟨0, 0⟩, true, false, []⟩ ⟨11, 100000000⟩ "x" = some t2 ∧
      t2.startWasSet = false ∧ t2.stopWasSet = true ∧
      t2.startTime = ⟨10, 900000000⟩ ∧ t2.endTime = ⟨11, 100000000⟩ ∧
      mapFind t2.timingsMap "x" =
        some (F32.add (F32.ofInt 0)
          (F32.div (F32.ofInt 200000000) (F32.ofInt 1000000000)))) := by
  have hrun : run (init ⟨0, 0⟩ ⟨0, 0⟩) [Call.tic ⟨10, 900000000⟩] =
      some ⟨⟨10, 900000000⟩, ⟨0, 0⟩, true, false, []⟩ := by decide
  have htoc : toc ⟨⟨10, 900000000⟩, ⟨0, 0⟩, true, false, []⟩ ⟨11, 100000000⟩ =
      some (⟨0, 200000000⟩, ⟨⟨10, 900000000⟩, ⟨11, 100000000⟩, false, true, []⟩) := by
    decide
  exact ⟨hrun, htoc, by decide,
    (tocNamed_refines_toc ⟨0, 0⟩ ⟨0, 0⟩ _ _ hrun ⟨11, 100000000⟩ "x").2.2.1 _ _ htoc⟩

end CPUTimer

/-! ## Growth of the label set (C12) -/

theorem mem_labels_mapAssign (m : List TimingInfo) (k : String) (v : F32) (k1 : String)
    (hm : Sorted m) :
    k1 ∈ (mapAssign m k v).map Prod.fst ↔ k1 = k ∨ k1 ∈ m.map Prod.fst := by
  simp only [List.mem_map]
  constructor
  · rintro ⟨e, he, rfl⟩
    rcases (mem_mapAssign m k v e hm).1 he with h | ⟨h, -⟩
    · left
      rw [h]
    · exact Or.inr ⟨e, h, rfl⟩
  · rintro (h | ⟨e, he, rfl⟩)
    · exact ⟨(k, v), (mem_mapAssign m k v _ hm).2 (Or.inl rfl), h.symm⟩
    · by_cases hk : e.1 = k
      · exact ⟨(k, v), (mem_mapAssign m k v _ hm).2 (Or.inl rfl), hk.symm⟩
      · exact ⟨e, (mem_mapAssign m k v e hm).2 (Or.inr ⟨he, hk⟩), rfl⟩

/-- The assignment `m[k] = v` adds one entry when `k` is not yet a key and none when
it is. -/
theorem length_mapAssign (m : List TimingInfo) (k : String) (v : F32) (hm : Sorted m) :
    (mapAssign m k v).length = if k ∈ m.map Prod.fst then m.length else m.length + 1 := by
  induction m with
  | nil => simp [mapAssign]
  | cons hd rest ih =>
    obtain ⟨k1, v1⟩ := hd
    obtain ⟨hhd, hrest⟩ := (sorted_cons _ _).1 hm
    simp only [mapAssign]
    split
    · rename_i hlt
      have hnot : k ∉ ((k1, v1) :: rest).map Prod.fst := by
        intro hmem
        simp only [List.mem_map] at hmem
        obtain ⟨f, hf, hfk⟩ := hmem
        rcases List.mem_cons.1 hf with rfl | hf1
        · exact strLt_ne k _ hlt hfk.symm
        · exact strLt_ne k f.1 (strLt_trans k k1 f.1 hlt (hhd f hf1)) hfk.symm
      rw [if_neg hnot]
      rfl
    · rename_i hnlt
      split
      · rename_i hlt
        have hk1 : k1 ≠ k := strLt_ne k1 k hlt
        have hiff : k ∈ ((k1, v1) :: rest).map Prod.fst ↔ k ∈ rest.map Prod.fst := by
          simp only [List.map_cons, List.mem_cons]
          constructor
          · rintro (h | h)
            · exact absurd h.symm hk1
            · exact h
          · exact Or.inr
        rw [List.length_cons, ih hrest]
        by_cases hin : k ∈ rest.map Prod.fst
        · rw [if_pos hin, if_pos (hiff.2 hin)]
          rfl
        · rw [if_neg hin, if_neg (fun h => hin (hiff.1 h))]
          rfl
      · rename_i hngt
        have hk : k = k1 := strLt_connected k k1 (by simpa using hnlt) (by simpa using hngt)
        subst hk
        rw [if_pos (by simp)]
        rfl

namespace CPUTimer

theorem step_labels (t t1 : CPUTimer) (c : Call) (h : step t c = some t1)
    (hm : Sorted t.timingsMap) :
    (∀ k, k ∈ t1.labels ↔ k ∈ t.labels ∨ ∃ now, c = Call.tocNamed now k) ∧
    t1.labels.length =
      (match c with
        | .tocNamed _ name => if name ∈ t.labels then t.labels.length else t.labels.length + 1
        | _ => t.labels.length) := by
  cases c with
  | tic now =>
    obtain ⟨-, -, rfl⟩ := tic_eq_some t t1 now h
    simp [labels]
  | toc now =>
    simp only [step, Option.map_eq_some', Prod.exists, exists_eq_right] at h
    obtain ⟨d, hd⟩ := h
    obtain ⟨-, -, -, rfl⟩ := toc_eq_some t t1 now d hd
    simp [labels]
  | tocNamed now name =>
    obtain ⟨d, t0, hd, rfl⟩ := tocNamed_eq_some t t1 now name h
    obtain ⟨-, -, -, rfl⟩ := toc_eq_some t t0 now d hd
    constructor
    · intro k
      simp only [labels]
      rw [mem_labels_mapAssign _ _ _ _ hm]
      constructor
      · rintro (h1 | h1)
        · exact Or.inr ⟨now, by rw [h1]⟩
        · exact Or.inl h1
      · rintro (h1 | ⟨n2, h1⟩)
        · exact Or.inr h1
        · cases h1
          exact Or.inl rfl
    · simp only [labels, List.length_map]
      rw [length_mapAssign _ _ _ hm]
  | getMeasurements => cases h; simp
  | allTimings => cases h; simp
  | totalTiming => cases h; simp

theorem run_labels_subset (cs : List Call) (t t1 : CPUTimer) (h : run t cs = some t1)
    (hm : Sorted t.timingsMap) (k : String) (hk : k ∈ t.labels) : k ∈ t1.labels := by
  induction cs generalizing t with
  | nil =>
    cases h
    exact hk
  | cons c cs ih =>
    simp only [run, Option.bind_eq_some] at h
    obtain ⟨t0, h0, h1⟩ := h
    exact ih t0 h1 (step_sorted t t0 c h0 hm) (((step_labels t t0 c h0 hm).1 k).2 (Or.inl hk))

/-- C12: in every reachable state, one successful call of `tic`, `toc`, `toc(name)`,
`getMeasurements`, `allTimings` or `totalTiming` removes no label; the labels after it
are the labels before it, plus `name` when the call is `toc(name)`; the number of
labels grows by one when the call is `toc(name)` with a new `name` and stays the same
otherwise; and along every further sequence of successful calls every label stays. -/
theorem labels_grow (st et : Timespec) (calls : List Call) (t t1 : CPUTimer) (c : Call)
    (hrun : run (init st et) calls = some t) (hstep : step t c = some t1) :
    (∀ k, k ∈ t.labels → k ∈ t1.labels) ∧
    (∀ k, k ∈ t1.labels → k ∈ t.labels ∨ ∃ now, c = Call.tocNamed now k) ∧
    t.labels.length ≤ t1.labels.length ∧ t1.labels.length ≤ t.labels.length + 1 ∧
    (t1.labels.length = t.labels.length + 1 ↔
      ∃ now name, c = Call.tocNamed now name ∧ name ∉ t.labels) ∧
    t1.labels.Nodup ∧
    (∀ cs t2, run t1 cs = some t2 → ∀ k, k ∈ t.labels → k ∈ t2.labels) := by
  have hs := sorted_of_run st et calls t hrun
  have hs1 := step_sorted t t1 c hstep hs
  obtain ⟨hmem, hlen⟩ := step_labels t t1 c hstep hs
  have hsub : ∀ k, k ∈ t.labels → k ∈ t1.labels := fun k hk => (hmem k).2 (Or.inl hk)
  refine ⟨hsub, fun k hk => (hmem k).1 hk, ?_, ?_, ?_, sorted_keys_nodup _ hs1, ?_⟩
  · rw [hlen]
    cases c <;> simp only [Nat.le_refl]
    split <;> omega
  · rw [hlen]
    cases c <;> simp only [Nat.le_add_right]
    split <;> omega
  · rw [hlen]
    cases c with
    | tocNamed now name =>
      simp only
      constructor
      · intro h
        by_cases hin : name ∈ t.labels
        · rw [if_pos hin] at h
          omega
        · exact ⟨now, name, rfl, hin⟩
      · rintro ⟨n2, name2, heq, hnot⟩
        cases heq
        rw [if_neg hnot]
    | tic now => simp
    | toc now => simp
    | getMeasurements => simp
    | allTimings => simp
    | totalTiming => simp
  · intro cs t2 h2 k hk
    exact run_labels_subset cs t1 t2 h2 hs1 k (hsub k hk)

set_option maxRecDepth 100000 in
/-- C12 after `toc("b")`: a cycle ending in `toc("a")` keeps `"b"` and adds `"a"`. -/
theorem labels_grow_witness :
    run (init ⟨0, 0⟩ ⟨0, 0⟩) [Call.tic ⟨0, 0⟩, Call.tocNamed ⟨1, 0⟩ "b", Call.tic ⟨1, 0⟩] =
      some ⟨⟨1, 0⟩, ⟨1, 0⟩, true, false, [("b", ⟨false, 127, 0⟩)]⟩ ∧
    step ⟨⟨1, 0⟩, ⟨1, 0⟩, true, false, [("b", ⟨false, 127, 0⟩)]⟩ (Call.tocNamed ⟨3, 0⟩ "a") =
      some ⟨⟨1, 0⟩, ⟨3, 0⟩, false, true, [("a", ⟨false, 128, 0⟩), ("b", ⟨false, 127, 0⟩)]⟩ ∧
    labels ⟨⟨1, 0⟩, ⟨3, 0⟩, false, true, [("a", ⟨false, 128, 0⟩), ("b", ⟨false, 127, 0⟩)]⟩ =
      ["a", "b"] ∧
    (∀ k, k ∈ labels ⟨⟨1, 0⟩, ⟨1, 0⟩, true, false, [("b", ⟨false, 127, 0⟩)]⟩ →
      k ∈ labels ⟨⟨1, 0⟩, ⟨3, 0⟩, false, true,
        [("a", ⟨false, 128, 0⟩), ("b", ⟨false, 127, 0⟩)]⟩) := by
  have hrun : run (init ⟨0, 0⟩ ⟨0, 0⟩)
      [Call.tic ⟨0, 0⟩, Call.tocNamed ⟨1, 0⟩ "b", Call.tic ⟨1, 0⟩] =
      some ⟨⟨1, 0⟩, ⟨1, 0⟩, true, false, [("b", ⟨false, 127, 0⟩)]⟩ := by decide
  have hstep : step ⟨⟨1, 0⟩, ⟨1, 0⟩, true, false, [("b", ⟨false, 127, 0⟩)]⟩
      (Call.tocNamed ⟨3, 0⟩ "a") =
      some ⟨⟨1, 0⟩, ⟨3, 0⟩, false, true,
        [("a", ⟨false, 128, 0⟩), ("b", ⟨false, 127, 0⟩)]⟩ := by decide
  exact ⟨hrun, hstep, by decide, (labels_grow ⟨0, 0⟩ ⟨0, 0⟩ _ _ _ _ hrun hstep).1⟩

/-! ## Reuse across cycles (C13) and clock readings in either order (C14) -/

/-- From an idle state every sequence of `tic()`/`toc()` cycles succeeds, returns the
duration of each cycle computed from that cycle's two readings, and ends idle with the
map untouched; the same calls succeed one by one in `run`. -/
theorem runCycles_of_idle (rs : List (Timespec × Timespec)) (t : CPUTimer)
    (h1 : t.stopWasSet = true) (h2 : t.startWasSet = false) :
    ∃ t1, runCycles t rs = some (rs.map (fun r => elapsed r.1 r.2), t1) ∧
      run t (cycleCalls rs) = some t1 ∧
      t1.stopWasSet = true ∧ t1.startWasSet = false ∧ t1.timingsMap = t.timingsMap := by
  induction rs generalizing t with
  | nil => exact ⟨t, rfl, rfl, h1, h2, rfl⟩
  | cons r rest ih =>
    obtain ⟨a, b⟩ := r
    have htic : t.tic a =
        some { t with startTime := a, startWasSet := true, stopWasSet := false } := by
      simp [tic, h1, h2]
    have htoc := toc_of_tic t _ a b htic
    obtain ⟨t1, e1, e2, e3, e4, e5⟩ :=
      ih { startTime := a, endTime := b, startWasSet := false, stopWasSet := true,
           timingsMap := t.timingsMap } rfl rfl
    refine ⟨t1, ?_, ?_, e3, e4, e5⟩
    · simp only [runCycles, htic, htoc, e1, List.map_cons]
    · simp only [cycleCalls, List.map_cons, List.flatten_cons, List.cons_append,
        List.nil_append, run, step, htic, htoc, Option.some_bind, Option.map_some']
      exact e2

/-- C13: a fresh stopwatch is idle; every successful `tic()` leaves it running and
every successful `toc()` or `toc(name)` leaves it idle; for every number of cycles, the
sequence `tic(), toc()` repeated on a fresh stopwatch succeeds at every step and ends
idle, and the duration each `toc()` returns is computed from the two clock readings of
its own cycle alone. -/
theorem cycles_reusable (st et : Timespec) (rs : List (Timespec × Timespec)) :
    ((init st et).startWasSet = false ∧ (init st et).stopWasSet = true) ∧
    (∀ (t t1 : CPUTimer) (now : Timespec), t.tic now = some t1 →
      t1.startWasSet = true ∧ t1.stopWasSet = false) ∧
    (∀ (t t1 : CPUTimer) (now d : Timespec), t.toc now = some (d, t1) →
      t1.startWasSet = false ∧ t1.stopWasSet = true) ∧
    (∀ (t t1 : CPUTimer) (now : Timespec) (name : String), t.tocNamed now name = some t1 →
      t1.startWasSet = false ∧ t1.stopWasSet = true) ∧
    (∃ t1, runCycles (init st et) rs = some (rs.map (fun r => elapsed r.1 r.2), t1) ∧
      run (init st et) (cycleCalls rs) = some t1 ∧
      (cycleCalls rs).length = 2 * rs.length ∧
      t1.startWasSet = false ∧ t1.stopWasSet = true) := by
  refine ⟨⟨rfl, rfl⟩, ?_, ?_, ?_, ?_⟩
  · intro t t1 now h
    obtain ⟨-, -, rfl⟩ := tic_eq_some t t1 now h
    exact ⟨rfl, rfl⟩
  · intro t t1 now d h
    obtain ⟨-, -, -, rfl⟩ := toc_eq_some t t1 now d h
    exact ⟨rfl, rfl⟩
  · intro t t1 now name h
    obtain ⟨d, t0, hd, rfl⟩ := tocNamed_eq_some t t1 now name h
    obtain ⟨-, -, -, rfl⟩ := toc_eq_some t t0 now d hd
    exact ⟨rfl, rfl⟩
  · obtain ⟨t1, e1, e2, e3, e4, -⟩ := runCycles_of_idle rs (init st et) rfl rfl
    refine ⟨t1, e1, e2, ?_, e4, e3⟩
    clear e1 e2
    induction rs with
    | nil => rfl
    | cons r rest ih =>
      simp only [cycleCalls, List.map_cons, List.flatten_cons, List.length_append,
        List.length_cons, List.length_nil] at ih ⊢
      omega

/-- C13 for two cycles, `(0,0)..(1,0)` and `(5,0)..(7,500)`: the durations are `(1,0)`
and `(2,500)`. -/
theorem cycles_reusable_witness :
    ∃ t1, runCycles (init ⟨0, 0⟩ ⟨0, 0⟩) [(⟨0, 0⟩, ⟨1, 0⟩), (⟨5, 0⟩, ⟨7, 500⟩)] =
        some ([⟨1, 0⟩, ⟨2, 500⟩], t1) ∧
      t1.startWasSet = false ∧ t1.stopWasSet = true := by
  obtain ⟨t1, e1, -, -, e3, e4⟩ :=
    (cycles_reusable ⟨0, 0⟩ ⟨0, 0⟩ [(⟨0, 0⟩, ⟨1, 0⟩), (⟨5, 0⟩, ⟨7, 500⟩)]).2.2.2.2
  refine ⟨t1, ?_, e3, e4⟩
  have hm : ([(⟨0, 0⟩, ⟨1, 0⟩), (⟨5, 0⟩, ⟨7, 500⟩)] : List (Timespec × Timespec)).map
      (fun r => elapsed r.1 r.2) = [⟨1, 0⟩, ⟨2, 500⟩] := by decide
  rw [e1, hm]

/-- C14 fails as stated.  With `start = (LONG_MAX, 0)` and `stop = (-2, 0)`, both with
nanoseconds in `[0, 10^9)` and `stop` before `start`, the subtraction of the second
counts leaves the range of `long`: `toc()` returns `(9223372036854775807, 0)`, a
duration that is not negative and is not the stop instant minus the start instant. -/
theorem toc_duration_backwards_counterexample :
    Timespec.InRange ⟨9223372036854775807, 0⟩ ∧ Timespec.InRange ⟨-2, 0⟩ ∧
    Timespec.Normalised ⟨9223372036854775807, 0⟩ ∧ Timespec.Normalised ⟨-2, 0⟩ ∧
    (-2 : Int) < 9223372036854775807 ∧
    (init ⟨0, 0⟩ ⟨0, 0⟩).tic ⟨9223372036854775807, 0⟩ =
      some ⟨⟨9223372036854775807, 0⟩, ⟨0, 0⟩, true, false, []⟩ ∧
    toc ⟨⟨9223372036854775807, 0⟩, ⟨0, 0⟩, true, false, []⟩ ⟨-2, 0⟩ =
      some (⟨9223372036854775807, 0⟩,
        ⟨⟨9223372036854775807, 0⟩, ⟨-2, 0⟩, false, true, []⟩) ∧
    ¬ ((9223372036854775807 : Int) < 0) ∧
    (9223372036854775807 : Int) * 1000000000 + 0 ≠
      (-2 * 1000000000 + 0) - (9223372036854775807 * 1000000000 + 0) := by
  refine ⟨by decide, by decide, by decide, by decide, by decide, by decide, by decide,
    by decide, by decide⟩

/-- C14, amended: for every pair of clock readings with nanoseconds in `[0, 10^9)`, in
either order, whose second counts differ by at most `LONG_MAX = 2^63 - 1` in absolute
value, `toc()` after `tic()` returns `(sec, nsec)` with `0 ≤ nsec < 10^9` and
`sec * 10^9 + nsec` equal to the stop instant minus the start instant; the seconds
part is negative, and so is the whole duration, exactly when the stop reading precedes
the start reading. -/
theorem toc_duration_either_order (t t1 : CPUTimer) (start stop : Timespec)
    (hstart : start.Normalised) (hstop : stop.Normalised)
    (hlo : -9223372036854775807 ≤ stop.tv_sec - start.tv_sec)
    (hhi : stop.tv_sec - start.tv_sec ≤ 9223372036854775807)
    (htic : t.tic start = some t1) :
    ∃ d t2, t1.toc stop = some (d, t2) ∧
      0 ≤ d.tv_nsec ∧ d.tv_nsec < 1000000000 ∧
      d.tv_sec * 1000000000 + d.tv_nsec =
        (stop.tv_sec * 1000000000 + stop.tv_nsec) -
          (start.tv_sec * 1000000000 + start.tv_nsec) ∧
      (d.tv_sec < 0 ↔
        (stop.tv_sec < start.tv_sec ∨
          (stop.tv_sec = start.tv_sec ∧ stop.tv_nsec < start.tv_nsec))) ∧
      (d.tv_sec * 1000000000 + d.tv_nsec < 0 ↔ d.tv_sec < 0) := by
  have hr := elapsed_nsec_range start stop hstart hstop
  have he : (elapsed start stop).tv_sec * 1000000000 + (elapsed start stop).tv_nsec =
      (stop.tv_sec * 1000000000 + stop.tv_nsec) -
        (start.tv_sec * 1000000000 + start.tv_nsec) :=
    elapsed_toNanos start stop hstart hstop hlo hhi
  refine ⟨elapsed start stop, _, toc_of_tic t t1 start stop htic, hr.1, hr.2, he, ?_, ?_⟩
  · unfold Timespec.Normalised at hstart hstop
    omega
  · omega

/-- C14 with the clock gone backwards, `start = (11, 100000000)` and
`stop = (10, 900000000)`: the duration is `(-1, 800000000)`, which is -0.2 s. -/
theorem toc_duration_either_order_witness :
    (init ⟨0, 0⟩ ⟨0, 0⟩).tic ⟨11, 100000000⟩ =
        some ⟨⟨11, 100000000⟩, ⟨0, 0⟩, true, false, []⟩ ∧
      ∃ d t2, toc ⟨⟨11, 100000000⟩, ⟨0, 0⟩, true, false, []⟩ ⟨10, 900000000⟩ = some (d, t2) ∧
        d = ⟨-1, 800000000⟩ ∧
        d.tv_sec * 1000000000 + d.tv_nsec =
          ((10 : Int) * 1000000000 + 900000000) - (11 * 1000000000 + 100000000) := by
  refine ⟨by decide, ?_⟩
  obtain ⟨d, t2, h, -, -, hd, -, -⟩ :=
    toc_duration_either_order (init ⟨0, 0⟩ ⟨0, 0⟩) ⟨⟨11, 100000000⟩, ⟨0, 0⟩, true, false, []⟩
      ⟨11, 100000000⟩ ⟨10, 900000000⟩ (by decide) (by decide) (by decide) (by decide)
      (by decide)
  refine ⟨d, t2, h, ?_, hd⟩
  have h2 : toc ⟨⟨11, 100000000⟩, ⟨0, 0⟩, true, false, []⟩ ⟨10, 900000000⟩ =
      some (⟨-1, 800000000⟩, ⟨⟨11, 100000000⟩, ⟨10, 900000000⟩, false, true, []⟩) := by
    decide
  rw [h2] at h
  cases h
  rfl

end CPUTimer

/-! ## Frame (C15) -/

/-- The assignment `m[k] = v` leaves the value of every other key as it was. -/
theorem mapFind_mapAssign_of_ne (m : List TimingInfo) (k : String) (v : F32) (y : String)
    (hy : y ≠ k) : mapFind (mapAssign m k v) y = mapFind m y := by
  induction m with
  | nil => simp [mapAssign, mapFind, hy.symm]
  | cons hd rest ih =>
    obtain ⟨k1, v1⟩ := hd
    simp only [mapAssign]
    split
    · simp only [mapFind, if_neg hy.symm]
    · rename_i hnlt
      split
      · simp only [mapFind, ih]
      · rename_i hngt
        have hk : k = k1 := strLt_connected k k1 (by simpa using hnlt) (by simpa using hngt)
        subst hk
        simp only [mapFind, if_neg hy.symm]

namespace CPUTimer

/-- C15: `tic()` and the unlabelled `toc()` leave the measurements map unchanged;
`toc(x)` leaves the value of every label other than `x` unchanged and stores its
seconds under `x`; `getMeasurements()`, `allTimings()` and `totalTiming()` leave the
whole state, map, flags and timestamps, unchanged. -/
theorem frame_conditions (t : CPUTimer) (now : Timespec) (x : String) :
    (∀ t1, t.tic now = some t1 → t1.timingsMap = t.timingsMap) ∧
    (∀ d t1, t.toc now = some (d, t1) → t1.timingsMap = t.timingsMap) ∧
    (∀ t1, t.tocNamed now x = some t1 →
      (∀ y, y ≠ x → mapFind t1.timingsMap y = mapFind t.timingsMap y) ∧
      (∃ v, t1.timingsMap = mapAssign t.timingsMap x v)) ∧
    step t Call.getMeasurements = some t ∧
    step t Call.allTimings = some t ∧
    step t Call.totalTiming = some t := by
  refine ⟨?_, ?_, ?_, rfl, rfl, rfl⟩
  · intro t1 h
    obtain ⟨-, -, rfl⟩ := tic_eq_some t t1 now h
    rfl
  · intro d t1 h
    obtain ⟨-, -, -, rfl⟩ := toc_eq_some t t1 now d h
    rfl
  · intro t1 h
    obtain ⟨d, t0, hd, rfl⟩ := tocNamed_eq_some t t1 now x h
    obtain ⟨-, -, -, rfl⟩ := toc_eq_some t t0 now d hd
    exact ⟨fun y hy => mapFind_mapAssign_of_ne _ _ _ y hy, _, rfl⟩

set_option maxRecDepth 100000 in
/-- C15 on a running stopwatch that holds `"b"`: `toc("a")` leaves the value of `"b"`. -/
theorem frame_conditions_witness :
    tocNamed ⟨⟨1, 0⟩, ⟨1, 0⟩, true, false, [("b", ⟨false, 127, 0⟩)]⟩ ⟨3, 0⟩ "a" =
      some ⟨⟨1, 0⟩, ⟨3, 0⟩, false, true, [("a", ⟨false, 128, 0⟩), ("b", ⟨false, 127, 0⟩)]⟩ ∧
    mapFind [("a", ⟨false, 128, 0⟩), ("b", ⟨false, 127, 0⟩)] "b" =
      mapFind [("b", ⟨false, 127, 0⟩)] "b" := by
  have h : tocNamed ⟨⟨1, 0⟩, ⟨1, 0⟩, true, false, [("b", ⟨false, 127, 0⟩)]⟩ ⟨3, 0⟩ "a" =
      some ⟨⟨1, 0⟩, ⟨3, 0⟩, false, true,
        [("a", ⟨false, 128, 0⟩), ("b", ⟨false, 127, 0⟩)]⟩ := by decide
  exact ⟨h, ((frame_conditions _ ⟨3, 0⟩ "a").2.2.1 _ h).1 "b" (by decide)⟩

end CPUTimer
